import Mathlib

/-!
# Verification of the transactional stock-and-sale engine

Shallow embedding of the core database logic of the repository:

* `POSHandler.process_sales_batch` (handler/POS_handler.py): bulk sale
  commit — header placeholders, FIFO shelf depletion per cart line,
  sales-item rows, shortage rows, header-total updates;
* `SellingAreaHandler.resolve_shortages` and
  `ShelfHandler.resolve_shortages` (shortage ledger);
* `ShelfHandler.restock_item` / `transfer_from_inventory` /
  `add_to_shelf` (shelf replenishment);
* `InventoryHandler._restock_supplier` / `restock_items_bulk`
  (warehouse replenishment and the sequence guard).

Tables are lists of rows kept in physical order; SQL `ORDER BY`
clauses are modelled by a stable sort on exactly the listed columns, so
the order of rows that tie on those columns is the table's physical
order, as in the SQL.  Monetary values are exact rationals and Python's
`round(x, 2)` is round-half-to-even at two decimals.
-/

namespace Testingamas

/-- Round a rational to the nearest integer, half to even (Python `round`). -/
def roundHalfEven (q : ℚ) : ℤ :=
  let f : ℤ := ⌊q⌋
  let r : ℚ := q - f
  if r < 1/2 then f
  else if 1/2 < r then f + 1
  else if f % 2 = 0 then f else f + 1

/-- Python `round(q, 2)`: round half to even at two decimal places. -/
def round2 (q : ℚ) : ℚ := (roundHalfEven (q * 100) : ℚ) / 100

theorem round2_zero : round2 0 = 0 := by
  norm_num [round2, roundHalfEven]

/-- `round2` fixes any rational that is already an integer multiple of 1/100. -/
theorem round2_eq_self_of_den (z : ℤ) : round2 ((z : ℚ) / 100) = (z : ℚ) / 100 := by
  have h100 : ((z : ℚ) / 100) * 100 = (z : ℚ) := by
    field_simp
  unfold round2 roundHalfEven
  rw [h100]
  simp [Int.floor_intCast]

/-! ## Shelf stock layers (table `shelf`) -/

/-- One row of the `shelf` table: a shelf-tier stock layer. -/
structure ShelfRow where
  shelfid        : Nat
  itemid         : Nat
  quantity       : ℤ
  expirationdate : ℕ
  cost_per_unit  : ℚ
  lastupdated    : Option ℕ
deriving DecidableEq

/-- Comparison used by `ORDER BY expirationdate`. -/
def expLe (a b : ShelfRow) : Prop := a.expirationdate ≤ b.expirationdate

instance : DecidableRel expLe := fun a b => Nat.decLe a.expirationdate b.expirationdate

instance : IsTotal ShelfRow expLe := ⟨fun a b => Nat.le_total a.expirationdate b.expirationdate⟩

instance : IsTrans ShelfRow expLe := ⟨fun _ _ _ => Nat.le_trans⟩

/-- The depletion query of `process_sales_batch`:
`SELECT shelfid, quantity FROM shelf WHERE itemid = %s AND quantity > 0
ORDER BY expirationdate`.  The sort is stable, so rows with equal
expiration dates come back in table order. -/
def shelfSelect (shelf : List ShelfRow) (iid : Nat) : List ShelfRow :=
  List.insertionSort expLe (shelf.filter fun r => decide (r.itemid = iid ∧ 0 < r.quantity))

/-- `DELETE FROM shelf WHERE shelfid = %s`. -/
def deleteShelf (shelf : List ShelfRow) (sid : Nat) : List ShelfRow :=
  shelf.filter fun r => decide (r.shelfid ≠ sid)

/-- `UPDATE shelf SET quantity = quantity - %s WHERE shelfid = %s`
(no `lastupdated` stamp in this statement). -/
def decShelf (shelf : List ShelfRow) (sid : Nat) (d : ℤ) : List ShelfRow :=
  shelf.map fun r => if r.shelfid = sid then { r with quantity := r.quantity - d } else r

/-- The FIFO depletion loop of `process_sales_batch`, walking the rows
returned by `shelfSelect` over the current table.  Returns the list of
(row, quantity taken) pairs in the order the rows were touched, the
table after the deletes/updates, and the unfulfilled remainder. -/
def depleteRows : List ShelfRow → List ShelfRow → ℤ →
    List (ShelfRow × ℤ) × List ShelfRow × ℤ
  | [], shelf, remaining => ([], shelf, remaining)
  | r :: rs, shelf, remaining =>
    if remaining = 0 then ([], shelf, 0)
    else if r.quantity ≤ remaining then
      let rest := depleteRows rs (deleteShelf shelf r.shelfid) (remaining - r.quantity)
      ((r, r.quantity) :: rest.1, rest.2)
    else
      ([(r, remaining)], decShelf shelf r.shelfid remaining, 0)

/-- One depletion call against the shelf tier, as performed per cart line
inside `process_sales_batch`. -/
def depleteItem (shelf : List ShelfRow) (iid : Nat) (req : ℤ) :
    List (ShelfRow × ℤ) × List ShelfRow × ℤ :=
  depleteRows (shelfSelect shelf iid) shelf req

/-- Rows touched by a depletion, in the order they were touched. -/
def touched (shelf : List ShelfRow) (iid : Nat) (req : ℤ) : List ShelfRow :=
  (depleteItem shelf iid req).1.map Prod.fst

/-- Quantity actually consumed by a depletion. -/
def sumTakes (l : List (ShelfRow × ℤ)) : ℤ := (l.map Prod.snd).sum

example :
    depleteItem
      [⟨1, 7, 4, 100, 3/2, none⟩, ⟨2, 7, 10, 200, 8/5, none⟩] 7 10 =
    ([(⟨1, 7, 4, 100, 3/2, none⟩, 4), (⟨2, 7, 10, 200, 8/5, none⟩, 6)],
     [⟨2, 7, 4, 200, 8/5, none⟩], 0) := by
  simp [depleteItem, shelfSelect, depleteRows, deleteShelf, decShelf, expLe,
    List.insertionSort, List.orderedInsert]

/-! ### Depletion lemmas -/

/-- The rows touched by the depletion loop form a prefix of the rows the
query returned. -/
theorem depleteRows_touched_front (rows shelf : List ShelfRow) (rem : ℤ) :
    ((depleteRows rows shelf rem).1.map Prod.fst) <+: rows := by
  induction rows generalizing shelf rem with
  | nil => simp [depleteRows]
  | cons r rs ih =>
    by_cases h0 : rem = 0
    · simp [depleteRows, h0]
    · by_cases hle : r.quantity ≤ rem
      · obtain ⟨t, ht⟩ := ih (deleteShelf shelf r.shelfid) (rem - r.quantity)
        exact ⟨t, by simp [depleteRows, h0, hle, ht]⟩
      · simp [depleteRows, h0, hle, List.prefix_cons_inj]

/-- Accounting: the quantity consumed plus the unfulfilled remainder
equals the requested quantity. -/
theorem depleteRows_accounting (rows shelf : List ShelfRow) (rem : ℤ) :
    sumTakes (depleteRows rows shelf rem).1 + (depleteRows rows shelf rem).2.2 = rem := by
  induction rows generalizing shelf rem with
  | nil => simp [depleteRows, sumTakes]
  | cons r rs ih =>
    by_cases h0 : rem = 0
    · simp [depleteRows, h0, sumTakes]
    · by_cases hle : r.quantity ≤ rem
      · have := ih (deleteShelf shelf r.shelfid) (rem - r.quantity)
        simp only [depleteRows, h0, if_false, hle, if_true, sumTakes, List.map_cons,
          List.sum_cons] at *
        omega
      · simp [depleteRows, h0, hle, sumTakes]

/-- The rows the query returns are sorted by expiration date. -/
theorem shelfSelect_sorted (shelf : List ShelfRow) (iid : Nat) :
    List.Sorted expLe (shelfSelect shelf iid) :=
  List.sorted_insertionSort expLe _

/-- Every row the query returns belongs to the table, has the requested
item and positive quantity. -/
theorem shelfSelect_mem (shelf : List ShelfRow) (iid : Nat) :
    ∀ r ∈ shelfSelect shelf iid, r ∈ shelf ∧ r.itemid = iid ∧ 0 < r.quantity := by
  intro r hr
  have hperm := List.perm_insertionSort expLe
    (shelf.filter fun r => decide (r.itemid = iid ∧ 0 < r.quantity))
  have hmem : r ∈ shelf.filter fun r => decide (r.itemid = iid ∧ 0 < r.quantity) :=
    hperm.mem_iff.mp hr
  have := List.of_mem_filter hmem
  exact ⟨List.mem_of_mem_filter hmem, by simpa using this⟩

/-! ### Keyed-table helpers

SQL `UPDATE`/`DELETE` statements of the handlers address rows through a
key column (`shelfid`, `shortageid`).  These helpers capture the common
reasoning about such statements on list-represented tables. -/

section Keyed

variable {α : Type} (key : α → Nat)

/-- The rows of a table whose key column equals `k`. -/
def rowsWith (tbl : List α) (k : Nat) : List α :=
  tbl.filter fun x => decide (key x = k)

theorem mem_rowsWith {tbl : List α} {k : Nat} {x : α} :
    x ∈ rowsWith key tbl k ↔ x ∈ tbl ∧ key x = k := by
  simp [rowsWith]

theorem rowsWith_filter (p : α → Bool) (tbl : List α) (k : Nat) :
    rowsWith key (tbl.filter p) k = (rowsWith key tbl k).filter p := by
  induction tbl with
  | nil => rfl
  | cons x xs ih =>
    by_cases hp : p x <;> by_cases hk : key x = k <;>
      simp [rowsWith, hp, hk] at ih ⊢ <;> simpa [rowsWith] using ih

/-- A row with a key appearing exactly once in the table is the only
row `rowsWith` returns for that key. -/
theorem rowsWith_of_nodup {tbl : List α} (hnd : (tbl.map key).Nodup)
    {x : α} (hx : x ∈ tbl) : rowsWith key tbl (key x) = [x] := by
  induction tbl with
  | nil => cases hx
  | cons y ys ih =>
    simp only [List.map_cons, List.nodup_cons] at hnd
    rcases List.mem_cons.mp hx with rfl | hmem
    · have hz : ∀ z ∈ ys, ¬ key z = key x := by
        intro z hz he
        exact hnd.1 (he ▸ List.mem_map_of_mem key hz)
      have hnil : ys.filter (fun z => decide (key z = key x)) = [] :=
        List.filter_eq_nil_iff.mpr (by intro z hmem; simpa using hz z hmem)
      simp [rowsWith, List.filter_cons, hnil]
    · have hne : ¬ key y = key x := by
        intro he
        exact hnd.1 (he ▸ List.mem_map_of_mem key hmem)
      simpa [rowsWith, List.filter_cons, hne] using ih hnd.2 hmem

variable (g : α → α)

/-- An `UPDATE … WHERE key = k` statement: rewrite every row with key `k`. -/
def updateBy (k : Nat) (tbl : List α) : List α :=
  tbl.map fun x => if key x = k then g x else x

/-- A `DELETE … WHERE key = k` statement. -/
def deleteBy (k : Nat) (tbl : List α) : List α :=
  tbl.filter fun x => decide (key x ≠ k)

theorem map_key_updateBy (hg : ∀ x, key (g x) = key x) (k : Nat) (tbl : List α) :
    (updateBy key g k tbl).map key = tbl.map key := by
  unfold updateBy
  rw [List.map_map]
  refine List.map_congr_left (fun x _ => ?_)
  by_cases hk : key x = k <;> simp [hk, hg x]

theorem rowsWith_updateBy_self (hg : ∀ x, key (g x) = key x) (k : Nat) (tbl : List α) :
    rowsWith key (updateBy key g k tbl) k = (rowsWith key tbl k).map g := by
  unfold rowsWith updateBy
  rw [List.filter_map]
  have h1 : tbl.filter ((fun x => decide (key x = k)) ∘ fun x => if key x = k then g x else x)
      = tbl.filter fun x => decide (key x = k) := by
    refine List.filter_congr (fun x _ => ?_)
    by_cases hk : key x = k <;> simp [hk, hg x]
  rw [h1]
  refine List.map_congr_left (fun x hx => ?_)
  have := List.of_mem_filter hx
  simp only [decide_eq_true_eq] at this
  simp [this]

theorem rowsWith_updateBy_other (hg : ∀ x, key (g x) = key x) {k k' : Nat}
    (hne : k' ≠ k) (tbl : List α) :
    rowsWith key (updateBy key g k tbl) k' = rowsWith key tbl k' := by
  unfold rowsWith updateBy
  rw [List.filter_map]
  have h1 : tbl.filter ((fun x => decide (key x = k')) ∘ fun x => if key x = k then g x else x)
      = tbl.filter fun x => decide (key x = k') := by
    refine List.filter_congr (fun x _ => ?_)
    by_cases hk : key x = k <;> simp [hk, hg x]
  rw [h1]
  refine (List.map_congr_left (fun x hx => ?_)).trans (List.map_id _)
  have := List.of_mem_filter hx
  simp only [decide_eq_true_eq] at this
  have : ¬ key x = k := fun h => hne (this ▸ h ▸ rfl)
  simp [this]

theorem rowsWith_deleteBy_self (k : Nat) (tbl : List α) :
    rowsWith key (deleteBy key k tbl) k = [] := by
  refine List.filter_eq_nil_iff.mpr (fun x hx => ?_)
  have := List.of_mem_filter hx
  simp only [ne_eq, decide_not, Bool.not_eq_eq_eq_not, Bool.not_true,
    decide_eq_false_iff_not] at this
  simpa using this

theorem rowsWith_deleteBy_other {k k' : Nat} (hne : k' ≠ k) (tbl : List α) :
    rowsWith key (deleteBy key k tbl) k' = rowsWith key tbl k' := by
  unfold rowsWith deleteBy
  rw [List.filter_filter]
  refine List.filter_congr (fun x _ => ?_)
  by_cases hk' : key x = k'
  · have : ¬ key x = k := fun h => hne (hk' ▸ h ▸ rfl)
    simp [hk', this, hne]
  · simp [hk']

end Keyed

/-! ### Effect of the depletion loop on the shelf table -/

/-- Key column of the `shelf` table. -/
def shelfKey (r : ShelfRow) : Nat := r.shelfid

theorem deleteShelf_eq (shelf : List ShelfRow) (sid : Nat) :
    deleteShelf shelf sid = deleteBy shelfKey sid shelf := rfl

theorem decShelf_eq (shelf : List ShelfRow) (sid : Nat) (d : ℤ) :
    decShelf shelf sid d =
      updateBy shelfKey (fun r => { r with quantity := r.quantity - d }) sid shelf := rfl

/-- The depletion loop leaves rows whose `shelfid` it never visits alone. -/
theorem depleteRows_rowsWith_other (rows : List ShelfRow) (tbl : List ShelfRow)
    (rem : ℤ) {k : Nat} (hk : k ∉ rows.map shelfKey) :
    rowsWith shelfKey (depleteRows rows tbl rem).2.1 k = rowsWith shelfKey tbl k := by
  induction rows generalizing tbl rem with
  | nil => rfl
  | cons r rs ih =>
    simp only [List.map_cons, List.mem_cons, not_or] at hk
    have hk1 : k ≠ r.shelfid := hk.1
    by_cases h0 : rem = 0
    · simp [depleteRows, h0]
    · by_cases hle : r.quantity ≤ rem
      · simp only [depleteRows, h0, if_false, hle, if_true]
        rw [ih _ _ hk.2, deleteShelf_eq,
          rowsWith_deleteBy_other shelfKey hk1 tbl]
      · simp only [depleteRows, h0, if_false, hle, if_true]
        rw [decShelf_eq,
          rowsWith_updateBy_other shelfKey
            (fun r => { r with quantity := r.quantity - rem })
            (fun _ => rfl) hk1 tbl]

/-- Per-row effect of the depletion loop: a fully consumed row is
deleted from the table, a partially consumed one keeps its identity,
cost, expiry and `lastupdated`, with only the quantity reduced. -/
theorem depleteRows_effect (rows tbl : List ShelfRow) (rem : ℤ)
    (hrows : ∀ x ∈ rows, rowsWith shelfKey tbl (shelfKey x) = [x])
    (hnd : (rows.map shelfKey).Nodup) :
    ∀ p ∈ (depleteRows rows tbl rem).1,
      (p.2 = p.1.quantity →
        rowsWith shelfKey (depleteRows rows tbl rem).2.1 (shelfKey p.1) = []) ∧
      (p.2 ≠ p.1.quantity →
        rowsWith shelfKey (depleteRows rows tbl rem).2.1 (shelfKey p.1)
          = [{ p.1 with quantity := p.1.quantity - p.2 }]) := by
  induction rows generalizing tbl rem with
  | nil => intro p hp; simp [depleteRows] at hp
  | cons r rs ih =>
    simp only [List.map_cons, List.nodup_cons] at hnd
    by_cases h0 : rem = 0
    · intro p hp; simp [depleteRows, h0] at hp
    · by_cases hle : r.quantity ≤ rem
      · intro p hp
        simp only [depleteRows, h0, if_false, hle, if_true, List.mem_cons] at hp ⊢
        rcases hp with rfl | hp
        · simp only []
          refine ⟨fun _ => ?_, fun hne => absurd rfl hne⟩
          show rowsWith shelfKey
            (depleteRows rs (deleteShelf tbl r.shelfid) (rem - r.quantity)).2.1
              r.shelfid = []
          have : r.shelfid ∉ rs.map shelfKey := hnd.1
          rw [depleteRows_rowsWith_other rs _ _ this, deleteShelf_eq,
            rowsWith_deleteBy_self shelfKey r.shelfid tbl]
        · have hrows' : ∀ x ∈ rs, rowsWith shelfKey (deleteShelf tbl r.shelfid)
              (shelfKey x) = [x] := by
            intro x hx
            have hne : shelfKey x ≠ r.shelfid := by
              intro h
              have hmem := List.mem_map_of_mem shelfKey hx
              rw [h] at hmem
              exact hnd.1 hmem
            rw [deleteShelf_eq, rowsWith_deleteBy_other shelfKey hne tbl]
            exact hrows x (List.mem_cons_of_mem r hx)
          exact ih (deleteShelf tbl r.shelfid) (rem - r.quantity) hrows' hnd.2 p hp
      · intro p hp
        simp only [depleteRows, h0, if_false, hle, if_true, List.mem_cons,
          List.not_mem_nil, or_false] at hp ⊢
        subst hp
        have hlt : rem < r.quantity := lt_of_not_le hle
        refine ⟨fun h => absurd h (by simpa using (by omega : ¬ rem = r.quantity)),
          fun _ => ?_⟩
        show rowsWith shelfKey (decShelf tbl r.shelfid rem) r.shelfid
          = [{ r with quantity := r.quantity - rem }]
        have hr := hrows r (List.mem_cons_self r rs)
        rw [show shelfKey r = r.shelfid from rfl] at hr
        rw [decShelf_eq,
          rowsWith_updateBy_self shelfKey
            (fun r => { r with quantity := r.quantity - rem }) (fun _ => rfl)
            r.shelfid tbl, hr]
        rfl

/-! ### Claim C1 — depletion consumption order -/

/-- The consumption order the claim asserts: lexicographic
(expiration_date, cost_per_unit, layer id). -/
def claimLexLe (a b : ShelfRow) : Prop :=
  a.expirationdate < b.expirationdate ∨
    (a.expirationdate = b.expirationdate ∧
      (a.cost_per_unit < b.cost_per_unit ∨
        (a.cost_per_unit = b.cost_per_unit ∧ a.shelfid ≤ b.shelfid)))

/-- C1 (counterexample): two layers of the same item with equal
expiration dates, the costlier one first in table order.  The depletion
of `process_sales_batch` orders only by `expirationdate`, so it consumes
the costlier, higher-id layer first, violating the claimed
(expiration, cost, id) order. -/
theorem C1_counterexample :
    ¬ List.Pairwise claimLexLe
        (touched [⟨2, 7, 3, 5, 2, none⟩, ⟨1, 7, 3, 5, 1, none⟩] 7 6) := by
  have ht : touched [⟨2, 7, 3, 5, 2, none⟩, ⟨1, 7, 3, 5, 1, none⟩] 7 6
      = [⟨2, 7, 3, 5, 2, none⟩, ⟨1, 7, 3, 5, 1, none⟩] := by
    simp [touched, depleteItem, shelfSelect, depleteRows, deleteShelf, expLe,
      List.insertionSort, List.orderedInsert]
  rw [ht]
  intro h
  have := (List.pairwise_cons.mp h).1 ⟨1, 7, 3, 5, 1, none⟩ (by simp)
  simp only [claimLexLe] at this
  norm_num at this

/-- C1 (amended): each depletion performed while committing a sale
touches the available layers of the requested item in non-decreasing
expiration-date order — the touched sequence is a prefix of the
positive-quantity layers of the item sorted by expiration date.  Ties on
the expiration date are consumed in table order; no cost-per-unit or
layer-id tie-break is applied. -/
theorem sale_depletion_expiration_order (shelf : List ShelfRow) (iid : Nat) (req : ℤ) :
    touched shelf iid req <+: shelfSelect shelf iid ∧
      List.Sorted expLe (touched shelf iid req) := by
  refine ⟨depleteRows_touched_front _ _ _, ?_⟩
  exact (shelfSelect_sorted shelf iid).sublist
    (depleteRows_touched_front _ _ _).sublist

/-! ### Claim C7 — fate of a fully consumed shelf layer -/

/-- C7 (counterexample): a depletion that fully consumes a shelf layer
(4 on shelf, 10 requested) leaves the shelf table empty: the row is
deleted by `DELETE FROM shelf WHERE shelfid = %s`, not kept at quantity
zero with a `lastupdated` stamp. -/
theorem C7_counterexample :
    (depleteItem [⟨1, 7, 4, 10, 3/2, some 0⟩] 7 10).2.1 = [] ∧
      (depleteItem [⟨1, 7, 4, 10, 3/2, some 0⟩] 7 10).2.2 = 6 := by
  constructor <;>
    simp [depleteItem, shelfSelect, depleteRows, deleteShelf, expLe,
      List.insertionSort, List.orderedInsert]

/-- C7 (amended): during the sale depletion of `process_sales_batch`, a
fully consumed shelf layer row is deleted from the table as part of the
depletion itself, while a partially consumed row survives with only its
quantity reduced — its `lastupdated` timestamp is left untouched (the
`UPDATE` sets only `quantity`). -/
theorem shelf_layer_full_consumption_effect (shelf : List ShelfRow) (iid : Nat)
    (req : ℤ) (hnd : (shelf.map shelfKey).Nodup) :
    ∀ p ∈ (depleteItem shelf iid req).1,
      (p.2 = p.1.quantity →
        rowsWith shelfKey (depleteItem shelf iid req).2.1 (shelfKey p.1) = []) ∧
      (p.2 ≠ p.1.quantity →
        rowsWith shelfKey (depleteItem shelf iid req).2.1 (shelfKey p.1)
          = [{ p.1 with quantity := p.1.quantity - p.2 }]) := by
  have hperm := List.perm_insertionSort expLe
    (shelf.filter fun r => decide (r.itemid = iid ∧ 0 < r.quantity))
  have hsub : ((shelf.filter fun r => decide (r.itemid = iid ∧ 0 < r.quantity)).map
      shelfKey).Sublist (shelf.map shelfKey) :=
    (List.filter_sublist shelf).map shelfKey
  have hnd1 : ((shelf.filter fun r => decide (r.itemid = iid ∧ 0 < r.quantity)).map
      shelfKey).Nodup := hnd.sublist hsub
  have hndsel : ((shelfSelect shelf iid).map shelfKey).Nodup :=
    ((hperm.map shelfKey).nodup_iff).mpr hnd1
  have hrows : ∀ x ∈ shelfSelect shelf iid,
      rowsWith shelfKey shelf (shelfKey x) = [x] :=
    fun x hx => rowsWith_of_nodup shelfKey hnd (shelfSelect_mem shelf iid x hx).1
  exact depleteRows_effect _ _ _ hrows hndsel

/-- Witness for `shelf_layer_full_consumption_effect` at a concrete
shelf state. -/
theorem shelf_layer_full_consumption_effect_witness :
    (([⟨1, 7, 4, 10, 3/2, some 0⟩] : List ShelfRow).map shelfKey).Nodup ∧
      rowsWith shelfKey (depleteItem [⟨1, 7, 4, 10, 3/2, some 0⟩] 7 10).2.1 1 = [] := by
  have hnd : (([⟨1, 7, 4, 10, 3/2, some 0⟩] : List ShelfRow).map shelfKey).Nodup := by
    simp [shelfKey]
  have hmem : ((⟨1, 7, 4, 10, 3/2, some 0⟩ : ShelfRow), (4 : ℤ)) ∈
      (depleteItem [⟨1, 7, 4, 10, 3/2, some 0⟩] 7 10).1 := by
    simp [depleteItem, shelfSelect, depleteRows, deleteShelf, expLe,
      List.insertionSort, List.orderedInsert]
  exact ⟨hnd,
    (shelf_layer_full_consumption_effect [⟨1, 7, 4, 10, 3/2, some 0⟩] 7 10 hnd
      _ hmem).1 rfl⟩

/-! ## The bulk sale transaction (`POSHandler.process_sales_batch`)

The batch call inserts one placeholder header per sale (capturing the
generated `saleid`s, modelled as consecutive values of a counter), runs
the per-line depletion building `salesitems`, `shelf_shortage` and
header-update rows, bulk-inserts the detail rows, and finally applies
the header-total updates. -/

/-- One entry of a `cart_items` list. -/
structure CartItem where
  itemid : Nat
  quantity : ℤ
  sellingprice : ℚ
deriving DecidableEq

/-- One element of the `sales` argument of `process_sales_batch`. -/
structure SaleInput where
  cashier : String
  cart_items : List CartItem
  discount_rate : ℚ
  payment_method : String
  notes : String
deriving DecidableEq

/-- One row of the `sales` table. -/
structure SaleRow where
  saleid : Nat
  totalamount : ℚ
  discountrate : ℚ
  totaldiscount : ℚ
  finalamount : ℚ
  paymentmethod : String
  cashier : String
  notes : String
deriving DecidableEq

/-- One row of the `salesitems` table. -/
structure SalesItemRow where
  saleid : Nat
  itemid : Nat
  quantity : ℤ
  unitprice : ℚ
  totalprice : ℚ
deriving DecidableEq

/-- A row the POS path inserts into `shelf_shortage`
(`saleid, itemid, shortage_qty`). -/
structure PosShortageRow where
  saleid : Nat
  itemid : Nat
  shortage_qty : ℤ
deriving DecidableEq

/-- The tables `process_sales_batch` reads and writes, plus the sale-id
counter that models the `saleid` sequence. -/
structure PosState where
  shelf : List ShelfRow
  sales : List SaleRow
  salesitems : List SalesItemRow
  shelf_shortage : List PosShortageRow
  nextSaleId : Nat
deriving DecidableEq

/-- The `salesitems` row recorded for one cart line: the full requested
quantity at the given price, with `totalprice = round(qty * price, 2)`. -/
def mkItemRow (sid : Nat) (it : CartItem) : SalesItemRow :=
  ⟨sid, it.itemid, it.quantity, it.sellingprice,
    round2 ((it.quantity : ℚ) * it.sellingprice)⟩

/-- Processing of one cart line: deplete the shelf, record the line at
the requested quantity, emit a shortage row when the remainder is
positive, and contribute `quantity * price` to the running total. -/
def processLine (shelf : List ShelfRow) (sid : Nat) (it : CartItem) :
    List ShelfRow × SalesItemRow × Option PosShortageRow × ℚ :=
  let d := depleteItem shelf it.itemid it.quantity
  (d.2.1, mkItemRow sid it,
    if 0 < d.2.2 then some ⟨sid, it.itemid, d.2.2⟩ else none,
    (it.quantity : ℤ) * it.sellingprice)

/-- Result of processing the lines of one sale. -/
structure CartOut where
  shelf : List ShelfRow
  items : List SalesItemRow
  shorts : List PosShortageRow
  total : ℚ
deriving DecidableEq

/-- The inner loop over `sale["cart_items"]`. -/
def processCart (shelf : List ShelfRow) (sid : Nat) : List CartItem → CartOut
  | [] => ⟨shelf, [], [], 0⟩
  | it :: rest =>
    let l := processLine shelf sid it
    let o := processCart l.1 sid rest
    ⟨o.shelf, l.2.1 :: o.items,
      (match l.2.2.1 with
       | some s => s :: o.shorts
       | none => o.shorts),
      l.2.2.2 + o.total⟩

/-- A pending header-totals update `(total, disc, final, saleid)`. -/
structure HeaderUpd where
  total : ℚ
  disc : ℚ
  final : ℚ
  saleid : Nat
deriving DecidableEq

/-- Accumulated rows of the outer loop over the batch. -/
structure LoopOut where
  shelf : List ShelfRow
  items : List SalesItemRow
  shorts : List PosShortageRow
  upds : List HeaderUpd
deriving DecidableEq

/-- The outer loop of `process_sales_batch`: one iteration per sale,
with `disc = round(total * rate / 100, 2)` and `final = total - disc`. -/
def processSalesLoop (shelf : List ShelfRow) (n : Nat) : List SaleInput → LoopOut
  | [] => ⟨shelf, [], [], []⟩
  | s :: rest =>
    let o := processCart shelf n s.cart_items
    let disc := round2 (o.total * s.discount_rate / 100)
    let r := processSalesLoop o.shelf (n + 1) rest
    ⟨r.shelf, o.items ++ r.items, o.shorts ++ r.shorts,
      ⟨o.total, disc, o.total - disc, n⟩ :: r.upds⟩

/-- The placeholder header inserted in phase 1, with zeroed totals. -/
def placeholderHeader (sid : Nat) (s : SaleInput) : SaleRow :=
  ⟨sid, 0, s.discount_rate, 0, 0, s.payment_method, s.cashier, s.notes⟩

/-- One `UPDATE sales SET totalamount…, totaldiscount…, finalamount…
WHERE saleid = %s` statement. -/
def applyHeaderUpd (sales : List SaleRow) (u : HeaderUpd) : List SaleRow :=
  sales.map fun r =>
    if r.saleid = u.saleid then
      { r with totalamount := u.total, totaldiscount := u.disc, finalamount := u.final }
    else r

/-- The `executemany` over all header updates. -/
def applyHeaderUpds (sales : List SaleRow) (us : List HeaderUpd) : List SaleRow :=
  us.foldl applyHeaderUpd sales

/-- The sale ids returned by the bulk header insert. -/
def mkSaleIds (n k : Nat) : List Nat := (List.range k).map (n + ·)

/-- `POSHandler.process_sales_batch`: the whole transaction.  An empty
`sales` argument returns immediately without touching the database. -/
def processSalesBatch (st : PosState) (sales : List SaleInput) : PosState :=
  if sales = [] then st
  else
    let headers := List.zipWith placeholderHeader
      (mkSaleIds st.nextSaleId sales.length) sales
    let r := processSalesLoop st.shelf st.nextSaleId sales
    { shelf := r.shelf
      sales := applyHeaderUpds (st.sales ++ headers) r.upds
      salesitems := st.salesitems ++ r.items
      shelf_shortage := st.shelf_shortage ++ r.shorts
      nextSaleId := st.nextSaleId + sales.length }

/-! ### Specification-side descriptions of the committed rows -/

/-- Spec formula: gross of a cart, `Σ (quantity × price)`. -/
def cartGross (cart : List CartItem) : ℚ :=
  (cart.map fun it => (it.quantity : ℚ) * it.sellingprice).sum

/-- Spec formula for a committed header: gross `Σ (quantity × price)`,
`discount = round(gross × rate/100, 2)`, `final = gross − discount`. -/
def specHeader (sid : Nat) (s : SaleInput) : SaleRow :=
  let g := cartGross s.cart_items
  let d := round2 (g * s.discount_rate / 100)
  ⟨sid, g, s.discount_rate, d, g - d, s.payment_method, s.cashier, s.notes⟩

/-- The `salesitems` rows of a batch, sale by sale. -/
def specItems (n : Nat) : List SaleInput → List SalesItemRow
  | [] => []
  | s :: rest => s.cart_items.map (mkItemRow n) ++ specItems (n + 1) rest

/-! ### Lemmas about the batch transaction -/

theorem processCart_items (shelf : List ShelfRow) (sid : Nat) (cart : List CartItem) :
    (processCart shelf sid cart).items = cart.map (mkItemRow sid) := by
  induction cart generalizing shelf with
  | nil => rfl
  | cons it rest ih => simp [processCart, processLine, ih]

theorem processCart_total (shelf : List ShelfRow) (sid : Nat) (cart : List CartItem) :
    (processCart shelf sid cart).total = cartGross cart := by
  induction cart generalizing shelf with
  | nil => rfl
  | cons it rest ih => simp [processCart, processLine, cartGross, ih]

theorem mkSaleIds_length (n k : Nat) : (mkSaleIds n k).length = k := by
  simp [mkSaleIds]

theorem mkSaleIds_succ (n k : Nat) : mkSaleIds n (k + 1) = n :: mkSaleIds (n + 1) k := by
  simp only [mkSaleIds, List.range_succ_eq_map, List.map_cons, List.map_map,
    List.cons.injEq, Nat.add_zero]
  refine ⟨trivial, List.map_congr_left fun i _ => ?_⟩
  simp only [Function.comp_apply]
  omega

theorem mkSaleIds_le (n k : Nat) : ∀ x ∈ mkSaleIds n k, n ≤ x := by
  intro x hx
  simp only [mkSaleIds, List.mem_map, List.mem_range] at hx
  obtain ⟨i, _, rfl⟩ := hx
  omega

theorem processSalesLoop_upds_saleid (shelf : List ShelfRow) (n : Nat)
    (ss : List SaleInput) :
    ∀ u ∈ (processSalesLoop shelf n ss).upds, n ≤ u.saleid := by
  induction ss generalizing shelf n with
  | nil => intro u hu; simp [processSalesLoop] at hu
  | cons s rest ih =>
    intro u hu
    simp only [processSalesLoop, List.mem_cons] at hu
    rcases hu with rfl | hu
    · exact le_refl n
    · exact Nat.le_of_succ_le (ih _ (n + 1) u hu)

theorem processSalesLoop_items (shelf : List ShelfRow) (n : Nat) (ss : List SaleInput) :
    (processSalesLoop shelf n ss).items = specItems n ss := by
  induction ss generalizing shelf n with
  | nil => rfl
  | cons s rest ih => simp [processSalesLoop, specItems, processCart_items, ih]

theorem applyHeaderUpd_append (a b : List SaleRow) (u : HeaderUpd) :
    applyHeaderUpd (a ++ b) u = applyHeaderUpd a u ++ applyHeaderUpd b u :=
  List.map_append _ a b

theorem applyHeaderUpds_append (a b : List SaleRow) (us : List HeaderUpd) :
    applyHeaderUpds (a ++ b) us = applyHeaderUpds a us ++ applyHeaderUpds b us := by
  induction us generalizing a b with
  | nil => rfl
  | cons u us ih =>
    show applyHeaderUpds (applyHeaderUpd (a ++ b) u) us = _
    rw [applyHeaderUpd_append]
    exact ih _ _

theorem applyHeaderUpd_of_ne {sales : List SaleRow} {u : HeaderUpd}
    (h : ∀ r ∈ sales, r.saleid ≠ u.saleid) : applyHeaderUpd sales u = sales :=
  (List.map_congr_left fun r hr => if_neg (h r hr)).trans (List.map_id _)

theorem applyHeaderUpds_of_ne {sales : List SaleRow} {us : List HeaderUpd}
    (h : ∀ u ∈ us, ∀ r ∈ sales, r.saleid ≠ u.saleid) :
    applyHeaderUpds sales us = sales := by
  induction us with
  | nil => rfl
  | cons u us ih =>
    show applyHeaderUpds (applyHeaderUpd sales u) us = sales
    rw [applyHeaderUpd_of_ne (h u (List.mem_cons_self u us))]
    exact ih fun v hv => h v (List.mem_cons_of_mem u hv)

theorem applyHeaderUpds_cons_of_ne {a : SaleRow} {t : List SaleRow}
    {us : List HeaderUpd} (h : ∀ u ∈ us, a.saleid ≠ u.saleid) :
    applyHeaderUpds (a :: t) us = a :: applyHeaderUpds t us := by
  induction us generalizing a t with
  | nil => rfl
  | cons u us ih =>
    show applyHeaderUpds (applyHeaderUpd (a :: t) u) us = _
    have : applyHeaderUpd (a :: t) u = a :: applyHeaderUpd t u := by
      simp only [applyHeaderUpd, List.map_cons,
        if_neg (h u (List.mem_cons_self u us))]
    rw [this]
    exact ih fun v hv => h v (List.mem_cons_of_mem u hv)

theorem zipWith_placeholder_saleid (ids : List Nat) (ss : List SaleInput) :
    ∀ r ∈ List.zipWith placeholderHeader ids ss, r.saleid ∈ ids := by
  induction ids generalizing ss with
  | nil => intro r hr; simp at hr
  | cons i is ih =>
    intro r hr
    cases ss with
    | nil => simp at hr
    | cons s rest =>
      simp only [List.zipWith_cons_cons, List.mem_cons] at hr
      rcases hr with rfl | hr
      · exact List.mem_cons_self i is
      · exact List.mem_cons_of_mem i (ih rest r hr)

/-- Applying the header updates of a batch to its placeholder headers
yields exactly the spec headers. -/
theorem applyHeaderUpds_headers (ss : List SaleInput) (shelf : List ShelfRow) (n : Nat) :
    applyHeaderUpds (List.zipWith placeholderHeader (mkSaleIds n ss.length) ss)
        (processSalesLoop shelf n ss).upds
      = List.zipWith specHeader (mkSaleIds n ss.length) ss := by
  induction ss generalizing shelf n with
  | nil => rfl
  | cons s rest ih =>
    rw [List.length_cons, mkSaleIds_succ, List.zipWith_cons_cons,
      List.zipWith_cons_cons]
    show applyHeaderUpds (applyHeaderUpd _ _) _ = _
    have hph : ∀ r ∈ List.zipWith placeholderHeader (mkSaleIds (n + 1) rest.length) rest,
        r.saleid ≠ n := by
      intro r hr h
      have := mkSaleIds_le (n + 1) rest.length r.saleid
        (zipWith_placeholder_saleid _ _ r hr)
      omega
    have h1 : applyHeaderUpd
        (placeholderHeader n s ::
          List.zipWith placeholderHeader (mkSaleIds (n + 1) rest.length) rest)
        ⟨(processCart shelf n s.cart_items).total,
          round2 ((processCart shelf n s.cart_items).total * s.discount_rate / 100),
          (processCart shelf n s.cart_items).total -
            round2 ((processCart shelf n s.cart_items).total * s.discount_rate / 100),
          n⟩
        = specHeader n s ::
            List.zipWith placeholderHeader (mkSaleIds (n + 1) rest.length) rest := by
      simp only [applyHeaderUpd, List.map_cons, List.cons.injEq]
      refine ⟨?_,
        (List.map_congr_left fun r hr => if_neg (hph r hr)).trans (List.map_id _)⟩
      simp [placeholderHeader, specHeader, processCart_total]
    rw [h1]
    have hupds : ∀ u ∈ (processSalesLoop (processCart shelf n s.cart_items).shelf
        (n + 1) rest).upds, (specHeader n s).saleid ≠ u.saleid := by
      intro u hu h
      have := processSalesLoop_upds_saleid _ (n + 1) rest u hu
      simp only [specHeader] at h
      omega
    rw [applyHeaderUpds_cons_of_ne hupds]
    rw [ih]

/-- Shape of the `sales` table after a batch: the old rows unchanged,
followed by one fully updated header per input sale. -/
theorem processSalesBatch_sales (st : PosState) (ss : List SaleInput)
    (fresh : ∀ r ∈ st.sales, r.saleid < st.nextSaleId) :
    (processSalesBatch st ss).sales
      = st.sales ++ List.zipWith specHeader (mkSaleIds st.nextSaleId ss.length) ss := by
  by_cases hss : ss = []
  · subst hss; simp [processSalesBatch, mkSaleIds]
  · simp only [processSalesBatch, hss, if_false]
    rw [applyHeaderUpds_append, applyHeaderUpds_headers]
    have : ∀ u ∈ (processSalesLoop st.shelf st.nextSaleId ss).upds,
        ∀ r ∈ st.sales, r.saleid ≠ u.saleid := by
      intro u hu r hr h
      have h1 := processSalesLoop_upds_saleid st.shelf st.nextSaleId ss u hu
      have h2 := fresh r hr
      omega
    rw [applyHeaderUpds_of_ne this]

theorem processSalesBatch_salesitems (st : PosState) (ss : List SaleInput) :
    (processSalesBatch st ss).salesitems
      = st.salesitems ++ specItems st.nextSaleId ss := by
  by_cases hss : ss = []
  · subst hss; simp [processSalesBatch, specItems]
  · simp only [processSalesBatch, hss, if_false]
    rw [processSalesLoop_items]

theorem processSalesBatch_shortage (st : PosState) (ss : List SaleInput) :
    (processSalesBatch st ss).shelf_shortage
      = st.shelf_shortage ++ (processSalesLoop st.shelf st.nextSaleId ss).shorts := by
  by_cases hss : ss = []
  · subst hss; simp [processSalesBatch, processSalesLoop]
  · simp only [processSalesBatch, hss, if_false]

/-! ### Claim C2 — header totals -/

/-- Helper: the committed header of sale `i` of a batch and its totals. -/
theorem batch_header_totals (st : PosState) (ss : List SaleInput)
    (fresh : ∀ r ∈ st.sales, r.saleid < st.nextSaleId)
    (i : Nat) (hi : i < ss.length) :
    ∃ r ∈ (processSalesBatch st ss).sales,
      r.saleid = st.nextSaleId + i ∧
      r.totalamount = cartGross (ss.get ⟨i, hi⟩).cart_items ∧
      r.discountrate = (ss.get ⟨i, hi⟩).discount_rate ∧
      r.totaldiscount = round2 (r.totalamount * (ss.get ⟨i, hi⟩).discount_rate / 100) ∧
      r.finalamount = r.totalamount - r.totaldiscount := by
  rw [processSalesBatch_sales st ss fresh]
  refine ⟨specHeader (st.nextSaleId + i) (ss.get ⟨i, hi⟩),
    List.mem_append_right _ ?_, ?_⟩
  · have hlen : i < (List.zipWith specHeader
        (mkSaleIds st.nextSaleId ss.length) ss).length := by
      simp [List.length_zipWith, mkSaleIds_length, hi]
    have hget : (List.zipWith specHeader (mkSaleIds st.nextSaleId ss.length) ss).get
        ⟨i, hlen⟩ = specHeader (st.nextSaleId + i) (ss.get ⟨i, hi⟩) := by
      simp [List.get_eq_getElem, List.getElem_zipWith, mkSaleIds]
    rw [← hget]
    exact List.get_mem _ i hlen
  · simp [specHeader]

/-- C2: for every committed sale, after the header update the persisted
totals satisfy gross `= Σ (requested quantity × unit price)`, discount
`= round(gross × rate/100, 2)` and final `= gross − discount`. -/
theorem sale_header_totals (st : PosState) (ss : List SaleInput)
    (fresh : ∀ r ∈ st.sales, r.saleid < st.nextSaleId)
    (i : Nat) (hi : i < ss.length) :
    ∃ r ∈ (processSalesBatch st ss).sales,
      r.saleid = st.nextSaleId + i ∧
      r.totalamount = cartGross (ss.get ⟨i, hi⟩).cart_items ∧
      r.discountrate = (ss.get ⟨i, hi⟩).discount_rate ∧
      r.totaldiscount = round2 (r.totalamount * (ss.get ⟨i, hi⟩).discount_rate / 100) ∧
      r.finalamount = r.totalamount - r.totaldiscount :=
  batch_header_totals st ss fresh i hi

/-- Witness for `sale_header_totals` on a one-sale batch. -/
theorem sale_header_totals_witness :
    ∃ r ∈ (processSalesBatch ⟨[], [], [], [], 1⟩
        [⟨"C1", [⟨7, 2, 3⟩], 10, "Cash", ""⟩]).sales,
      r.saleid = 1 ∧ r.totalamount = 6 ∧
      r.totaldiscount = round2 (6 * 10 / 100) ∧
      r.finalamount = r.totalamount - r.totaldiscount := by
  obtain ⟨r, hmem, h1, h2, h3, h4, h5⟩ :=
    sale_header_totals ⟨[], [], [], [], 1⟩ [⟨"C1", [⟨7, 2, 3⟩], 10, "Cash", ""⟩]
      (by intro r hr; simp at hr) 0 (by simp)
  have hg : cartGross [⟨7, 2, 3⟩] = 6 := by
    simp [cartGross]
    norm_num
  refine ⟨r, hmem, by simpa using h1, ?_, ?_, h5⟩
  · rw [h2]; simpa using hg
  · rw [h4, h2]
    simp only [List.get_eq_getElem]
    rw [show ([⟨"C1", [⟨7, 2, 3⟩], 10, "Cash", ""⟩] :
      List SaleInput)[0].discount_rate = 10 from rfl]
    rw [show ([⟨"C1", [⟨7, 2, 3⟩], 10, "Cash", ""⟩] :
      List SaleInput)[0].cart_items = [⟨7, 2, 3⟩] from rfl, hg]

/-! ### Claim C3 — requested quantities, shortages, soft failure -/

/-- C3: every cart line is persisted at its requested quantity; a line
whose depletion leaves a positive remainder emits exactly one shortage
row `(saleid, itemid, requested − fulfilled)` (so fulfilled + shortfall
= requested); and every sale of the batch — even one with no stock at
all — still gets a committed header. -/
theorem sale_lines_and_shortages (st : PosState) (ss : List SaleInput)
    (fresh : ∀ r ∈ st.sales, r.saleid < st.nextSaleId) :
    ((processSalesBatch st ss).salesitems
        = st.salesitems ++ specItems st.nextSaleId ss) ∧
    (∀ shelf sid it, (processLine shelf sid it).2.1 = mkItemRow sid it) ∧
    (∀ (shelf : List ShelfRow) (iid : Nat) (req : ℤ),
        sumTakes (depleteItem shelf iid req).1 + (depleteItem shelf iid req).2.2
          = req) ∧
    (∀ shelf sid it, (processLine shelf sid it).2.2.1
        = if 0 < (depleteItem shelf it.itemid it.quantity).2.2
          then some ⟨sid, it.itemid,
            it.quantity - sumTakes (depleteItem shelf it.itemid it.quantity).1⟩
          else none) ∧
    ((processSalesBatch st ss).shelf_shortage
        = st.shelf_shortage ++ (processSalesLoop st.shelf st.nextSaleId ss).shorts) ∧
    (∀ i (hi : i < ss.length), ∃ r ∈ (processSalesBatch st ss).sales,
        r.saleid = st.nextSaleId + i) := by
  refine ⟨processSalesBatch_salesitems st ss, fun _ _ _ => rfl, ?_, ?_, ?_, ?_⟩
  · intro shelf iid req
    exact depleteRows_accounting (shelfSelect shelf iid) shelf req
  · intro shelf sid it
    have hacc := depleteRows_accounting (shelfSelect shelf it.itemid) shelf it.quantity
    show (if 0 < (depleteItem shelf it.itemid it.quantity).2.2
        then some (⟨sid, it.itemid, (depleteItem shelf it.itemid it.quantity).2.2⟩ :
          PosShortageRow)
        else none) = _
    have : (depleteItem shelf it.itemid it.quantity).2.2
        = it.quantity - sumTakes (depleteItem shelf it.itemid it.quantity).1 := by
      unfold depleteItem
      omega
    rw [this]
  · exact processSalesBatch_shortage st ss
  · intro i hi
    obtain ⟨r, hmem, h1, _⟩ := batch_header_totals st ss fresh i hi
    exact ⟨r, hmem, h1⟩

/-- Witness for `sale_lines_and_shortages`: a sale against an empty
shelf (everything unfulfilled) is still committed, its line kept at the
requested quantity. -/
theorem sale_lines_and_shortages_witness :
    ((processSalesBatch ⟨[], [], [], [], 1⟩
        [⟨"C", [⟨7, 5, 2⟩], 0, "Cash", ""⟩]).salesitems
      = specItems 1 [⟨"C", [⟨7, 5, 2⟩], 0, "Cash", ""⟩]) ∧
    ∃ r ∈ (processSalesBatch ⟨[], [], [], [], 1⟩
        [⟨"C", [⟨7, 5, 2⟩], 0, "Cash", ""⟩]).sales, r.saleid = 1 := by
  obtain ⟨hitems, _, _, _, _, hsale⟩ :=
    sale_lines_and_shortages ⟨[], [], [], [], 1⟩ [⟨"C", [⟨7, 5, 2⟩], 0, "Cash", ""⟩]
      (by intro r hr; simp at hr)
  refine ⟨by simpa using hitems, ?_⟩
  obtain ⟨r, hmem, h1⟩ := hsale 0 (by simp)
  exact ⟨r, hmem, by simpa using h1⟩

/-! ### Claim C10 — zero-line carts -/

/-- C10 (counterexample): a batch consisting of one sale whose cart has
no lines still inserts a header row — only the empty *batch* is
rejected before insertion. -/
theorem C10_counterexample :
    (processSalesBatch ⟨[], [], [], [], 1⟩ [⟨"CASH01", [], 0, "Cash", ""⟩]).sales
      = [⟨1, 0, 0, 0, 0, "Cash", "CASH01", ""⟩] := by
  simp [processSalesBatch, processSalesLoop, processCart, applyHeaderUpds,
    applyHeaderUpd, placeholderHeader, mkSaleIds, List.range_succ, round2_zero]

/-- C10 (amended): an empty batch is rejected before any insertion and
leaves the state untouched; a zero-line cart inside a nonempty batch is
not rejected — it still gets a committed header whose totals are all
zero. -/
theorem empty_batch_and_zero_line_cart :
    (∀ st, processSalesBatch st [] = st) ∧
    (∀ (st : PosState) (ss : List SaleInput),
      (∀ r ∈ st.sales, r.saleid < st.nextSaleId) →
      ∀ i (hi : i < ss.length), (ss.get ⟨i, hi⟩).cart_items = [] →
      ∃ r ∈ (processSalesBatch st ss).sales,
        r.saleid = st.nextSaleId + i ∧ r.totalamount = 0 ∧
        r.totaldiscount = 0 ∧ r.finalamount = 0) := by
  refine ⟨fun st => by simp [processSalesBatch], ?_⟩
  intro st ss fresh i hi hcart
  obtain ⟨r, hmem, h1, h2, h3, h4, h5⟩ := batch_header_totals st ss fresh i hi
  have hg : cartGross (ss.get ⟨i, hi⟩).cart_items = 0 := by
    rw [hcart]; rfl
  have ht : r.totalamount = 0 := by rw [h2, hg]
  have hd : r.totaldiscount = 0 := by
    rw [h4, ht]
    simpa [round2_zero] using round2_zero
  exact ⟨r, hmem, h1, ht, hd, by rw [h5, ht, hd]; ring⟩

/-- Witness for `empty_batch_and_zero_line_cart`. -/
theorem empty_batch_and_zero_line_cart_witness :
    processSalesBatch ⟨[], [], [], [], 5⟩ [] = ⟨[], [], [], [], 5⟩ ∧
    ∃ r ∈ (processSalesBatch ⟨[], [], [], [], 1⟩
        [⟨"CASH01", [], 0, "Cash", ""⟩]).sales,
      r.saleid = 1 ∧ r.totalamount = 0 ∧ r.totaldiscount = 0 ∧ r.finalamount = 0 := by
  refine ⟨empty_batch_and_zero_line_cart.1 _, ?_⟩
  obtain ⟨r, hmem, h1, h2, h3, h4⟩ :=
    empty_batch_and_zero_line_cart.2 ⟨[], [], [], [], 1⟩
      [⟨"CASH01", [], 0, "Cash", ""⟩] (by intro r hr; simp at hr) 0 (by simp) rfl
  exact ⟨r, hmem, by simpa using h1, h2, h3, h4⟩

/-! ### Claim C8 — sum of line totals vs gross -/

theorem specItems_saleid_ge (ss : List SaleInput) (n : Nat) :
    ∀ r ∈ specItems n ss, n ≤ r.saleid := by
  induction ss generalizing n with
  | nil => intro r hr; simp [specItems] at hr
  | cons s rest ih =>
    intro r hr
    simp only [specItems, List.mem_append, List.mem_map] at hr
    rcases hr with ⟨it, _, rfl⟩ | hr
    · exact le_refl n
    · exact Nat.le_of_succ_le (ih (n + 1) r hr)

/-- The `salesitems` rows of sale `i` of a batch are exactly its cart
lines recorded by `mkItemRow`. -/
theorem specItems_filter (ss : List SaleInput) (n i : Nat) (hi : i < ss.length) :
    (specItems n ss).filter (fun r => decide (r.saleid = n + i))
      = (ss.get ⟨i, hi⟩).cart_items.map (mkItemRow (n + i)) := by
  induction ss generalizing n i with
  | nil => simp at hi
  | cons s rest ih =>
    cases i with
    | zero =>
      simp only [specItems, List.filter_append, Nat.add_zero]
      have h1 : (s.cart_items.map (mkItemRow n)).filter
          (fun r => decide (r.saleid = n)) = s.cart_items.map (mkItemRow n) := by
        refine List.filter_eq_self.mpr (fun r hr => ?_)
        obtain ⟨it, _, rfl⟩ := List.mem_map.mp hr
        simp [mkItemRow]
      have h2 : (specItems (n + 1) rest).filter
          (fun r => decide (r.saleid = n)) = [] := by
        refine List.filter_eq_nil_iff.mpr (fun r hr => ?_)
        have := specItems_saleid_ge rest (n + 1) r hr
        simp only [decide_eq_true_eq]
        omega
      rw [h1, h2, List.append_nil]
      rfl
    | succ j =>
      simp only [specItems, List.filter_append]
      have h1 : (s.cart_items.map (mkItemRow n)).filter
          (fun r => decide (r.saleid = n + (j + 1))) = [] := by
        refine List.filter_eq_nil_iff.mpr (fun r hr => ?_)
        obtain ⟨it, _, rfl⟩ := List.mem_map.mp hr
        simp only [mkItemRow, decide_eq_true_eq]
        omega
      have hj : j < rest.length := by simpa using hi
      have h2 := ih (n + 1) j hj
      have harith : n + 1 + j = n + (j + 1) := by omega
      rw [harith] at h2
      rw [h1, List.nil_append, h2]
      rfl

/-- C8 (counterexample): with two cart lines at unit price 17/8
(= 2.125), each persisted line total is `round(2.125, 2) = 2.12`, so
the line totals sum to 4.24, while the persisted gross is the unrounded
sum 4.25. -/
theorem C8_counterexample :
    ¬ (((processSalesBatch ⟨[], [], [], [], 1⟩
          [⟨"C", [⟨1, 1, 17/8⟩, ⟨2, 1, 17/8⟩], 0, "Cash", ""⟩]).salesitems.map
            (fun x => x.totalprice)).sum
        = ((processSalesBatch ⟨[], [], [], [], 1⟩
          [⟨"C", [⟨1, 1, 17/8⟩, ⟨2, 1, 17/8⟩], 0, "Cash", ""⟩]).sales.map
            (fun x => x.totalamount)).sum) := by
  have h178 : round2 (17/8) = 53/25 := by
    have hfloor : ⌊(17/8 * 100 : ℚ)⌋ = 212 := by
      rw [show (17/8 * 100 : ℚ) = 425/2 by norm_num]
      rw [Int.floor_eq_iff]
      norm_num
    unfold round2 roundHalfEven
    rw [hfloor]
    norm_num
  have hitems : (processSalesBatch ⟨[], [], [], [], 1⟩
      [⟨"C", [⟨1, 1, 17/8⟩, ⟨2, 1, 17/8⟩], 0, "Cash", ""⟩]).salesitems
      = [⟨1, 1, 1, 17/8, round2 (1 * (17/8))⟩, ⟨1, 2, 1, 17/8, round2 (1 * (17/8))⟩] := by
    rw [processSalesBatch_salesitems]
    simp [specItems, mkItemRow]
  have hsales : (processSalesBatch ⟨[], [], [], [], 1⟩
      [⟨"C", [⟨1, 1, 17/8⟩, ⟨2, 1, 17/8⟩], 0, "Cash", ""⟩]).sales
      = [specHeader 1 ⟨"C", [⟨1, 1, 17/8⟩, ⟨2, 1, 17/8⟩], 0, "Cash", ""⟩] := by
    rw [processSalesBatch_sales _ _ (by intro r hr; simp at hr)]
    simp [mkSaleIds, List.range_succ]
  rw [hitems, hsales]
  have h1 : (1 : ℚ) * (17/8) = 17/8 := by norm_num
  simp only [List.map_cons, List.map_nil, List.sum_cons, List.sum_nil, h1, h178,
    specHeader, cartGross, List.map_cons, List.map_nil, List.sum_cons, List.sum_nil]
  intro h
  norm_num at h

/-- C8 (amended): each persisted line total is
`round(requested quantity × unit price, 2)` while the persisted gross is
the unrounded sum `Σ (quantity × price)`; the sum of the line totals
equals the gross whenever every line's `quantity × price` is already
exact at two decimals (in particular for prices with at most two decimal
places), but can differ from it otherwise. -/
theorem sale_line_totals_sum (st : PosState) (ss : List SaleInput)
    (freshS : ∀ r ∈ st.sales, r.saleid < st.nextSaleId)
    (freshI : ∀ r ∈ st.salesitems, r.saleid < st.nextSaleId)
    (i : Nat) (hi : i < ss.length)
    (hround : ∀ it ∈ (ss.get ⟨i, hi⟩).cart_items,
      round2 ((it.quantity : ℚ) * it.sellingprice)
        = (it.quantity : ℚ) * it.sellingprice) :
    ∃ r ∈ (processSalesBatch st ss).sales,
      r.saleid = st.nextSaleId + i ∧
      (((processSalesBatch st ss).salesitems.filter
          (fun x => decide (x.saleid = st.nextSaleId + i))).map
            (fun x => x.totalprice)).sum = r.totalamount := by
  obtain ⟨r, hmem, h1, h2, _⟩ := batch_header_totals st ss freshS i hi
  refine ⟨r, hmem, h1, ?_⟩
  rw [processSalesBatch_salesitems, List.filter_append]
  have hold : st.salesitems.filter
      (fun x => decide (x.saleid = st.nextSaleId + i)) = [] := by
    refine List.filter_eq_nil_iff.mpr (fun x hx => ?_)
    have := freshI x hx
    simp only [decide_eq_true_eq]
    omega
  rw [hold, List.nil_append, specItems_filter ss st.nextSaleId i hi, h2]
  rw [List.map_map]
  unfold cartGross
  congr 1
  refine List.map_congr_left (fun it hit => ?_)
  simp only [Function.comp_apply, mkItemRow]
  exact hround it hit

/-- Witness for `sale_line_totals_sum` with a two-decimal price. -/
theorem sale_line_totals_sum_witness :
    ∃ r ∈ (processSalesBatch ⟨[], [], [], [], 1⟩
        [⟨"C", [⟨7, 2, 3⟩], 0, "Cash", ""⟩]).sales,
      r.saleid = 1 ∧
      (((processSalesBatch ⟨[], [], [], [], 1⟩
          [⟨"C", [⟨7, 2, 3⟩], 0, "Cash", ""⟩]).salesitems.filter
            (fun x => decide (x.saleid = 1))).map (fun x => x.totalprice)).sum
        = r.totalamount := by
  have h6 : round2 ((2 : ℚ) * 3) = (2 : ℚ) * 3 := by
    have h := round2_eq_self_of_den 600
    norm_num at h ⊢
    exact h
  obtain ⟨r, hmem, h1, h2⟩ :=
    sale_line_totals_sum ⟨[], [], [], [], 1⟩ [⟨"C", [⟨7, 2, 3⟩], 0, "Cash", ""⟩]
      (by intro r hr; simp at hr) (by intro r hr; simp at hr) 0 (by simp)
      (by intro it hit
          simp only [List.get_eq_getElem] at hit
          rw [show ([⟨"C", [⟨7, 2, 3⟩], 0, "Cash", ""⟩] :
            List SaleInput)[0].cart_items = [⟨7, 2, 3⟩] from rfl] at hit
          simp only [List.mem_singleton] at hit
          subst hit
          simpa using h6)
  exact ⟨r, hmem, by simpa using h1, by simpa using h2⟩

/-! ## The shortage ledger

Two resolvers exist in the source: `SellingAreaHandler.resolve_shortages`
(delete a fully absorbed record, update a partially absorbed one with
`resolved_at = CURRENT_TIMESTAMP`) and `ShelfHandler.resolve_shortages`
(always update, with `resolved_at = CASE WHEN fully-absorbed THEN
CURRENT_TIMESTAMP END`, then `DELETE FROM shelf_shortage WHERE
shortage_qty = 0`). -/

/-- One row of the `shelf_shortage` table. -/
structure ShortageRow where
  shortageid : Nat
  itemid : Nat
  shortage_qty : ℤ
  resolved_qty : Option ℤ
  resolved : Bool
  resolved_by : Option String
  resolved_at : Option ℕ
  logged_at : ℕ
deriving DecidableEq

/-- Key column of `shelf_shortage`. -/
def shortageKey (r : ShortageRow) : Nat := r.shortageid

/-- Comparison used by `ORDER BY logged_at`. -/
def loggedLe (a b : ShortageRow) : Prop := a.logged_at ≤ b.logged_at

instance : DecidableRel loggedLe := fun a b => Nat.decLe a.logged_at b.logged_at

instance : IsTotal ShortageRow loggedLe := ⟨fun a b => Nat.le_total a.logged_at b.logged_at⟩

instance : IsTrans ShortageRow loggedLe := ⟨fun _ _ _ => Nat.le_trans⟩

/-- The query of both resolvers:
`SELECT shortageid, shortage_qty FROM shelf_shortage WHERE itemid = %s
AND resolved = FALSE ORDER BY logged_at`. -/
def shortageSelect (tbl : List ShortageRow) (iid : Nat) : List ShortageRow :=
  List.insertionSort loggedLe
    (tbl.filter fun r => decide (r.itemid = iid ∧ r.resolved = false))

/-- `DELETE FROM shelf_shortage WHERE shortageid = %s`. -/
def deleteShortage (tbl : List ShortageRow) (sid : Nat) : List ShortageRow :=
  tbl.filter fun r => decide (r.shortageid ≠ sid)

/-- The `UPDATE` of `SellingAreaHandler.resolve_shortages`: reduce the
outstanding quantity, add to the resolved counter, stamp resolver and
timestamp. -/
def saUpdateRow (take : ℤ) (user : String) (now : ℕ) (r : ShortageRow) : ShortageRow :=
  { r with shortage_qty := r.shortage_qty - take,
           resolved_qty := some (r.resolved_qty.getD 0 + take),
           resolved_by := some user,
           resolved_at := some now }

def saUpdateShortage (tbl : List ShortageRow) (sid : Nat) (take : ℤ)
    (user : String) (now : ℕ) : List ShortageRow :=
  tbl.map fun r => if r.shortageid = sid then saUpdateRow take user now r else r

/-- The `UPDATE` of `ShelfHandler.resolve_shortages`: reduce the
outstanding quantity, add to the resolved counter, set `resolved` to
whether the old quantity minus the take is zero, set `resolved_at` only
in that case (`CASE` without `ELSE` yields NULL otherwise), and stamp
the resolver. -/
def shelfUpdateRow (take : ℤ) (user : String) (now : ℕ) (r : ShortageRow) : ShortageRow :=
  { r with shortage_qty := r.shortage_qty - take,
           resolved_qty := some (r.resolved_qty.getD 0 + take),
           resolved := decide (r.shortage_qty - take = 0),
           resolved_at := if r.shortage_qty - take = 0 then some now else none,
           resolved_by := some user }

def shelfUpdateShortage (tbl : List ShortageRow) (sid : Nat) (take : ℤ)
    (user : String) (now : ℕ) : List ShortageRow :=
  tbl.map fun r => if r.shortageid = sid then shelfUpdateRow take user now r else r

/-- Loop of `SellingAreaHandler.resolve_shortages` over the queried rows.
Returns the (row, take) pairs processed, the table, and the remaining
quantity. -/
def saResolveLoop (user : String) (now : ℕ) :
    List ShortageRow → List ShortageRow → ℤ →
    List (ShortageRow × ℤ) × List ShortageRow × ℤ
  | [], tbl, remaining => ([], tbl, remaining)
  | r :: rs, tbl, remaining =>
    if remaining = 0 then ([], tbl, 0)
    else
      let take := min remaining r.shortage_qty
      let tbl1 := if take = r.shortage_qty then deleteShortage tbl r.shortageid
                  else saUpdateShortage tbl r.shortageid take user now
      let rest := saResolveLoop user now rs tbl1 (remaining - take)
      ((r, take) :: rest.1, rest.2)

/-- `SellingAreaHandler.resolve_shortages(itemid, qty_need, user)`. -/
def sa_resolve_shortages (tbl : List ShortageRow) (iid : Nat) (qty_need : ℤ)
    (user : String) (now : ℕ) :
    List (ShortageRow × ℤ) × List ShortageRow × ℤ :=
  saResolveLoop user now (shortageSelect tbl iid) tbl qty_need

/-- Loop of `ShelfHandler.resolve_shortages` over the queried rows. -/
def shelfResolveLoop (user : String) (now : ℕ) :
    List ShortageRow → List ShortageRow → ℤ →
    List (ShortageRow × ℤ) × List ShortageRow × ℤ
  | [], tbl, remaining => ([], tbl, remaining)
  | r :: rs, tbl, remaining =>
    if remaining = 0 then ([], tbl, 0)
    else
      let take := min remaining r.shortage_qty
      let rest := shelfResolveLoop user now rs
        (shelfUpdateShortage tbl r.shortageid take user now) (remaining - take)
      ((r, take) :: rest.1, rest.2)

/-- `ShelfHandler.resolve_shortages(itemid, qty_need, user)`, ending with
`DELETE FROM shelf_shortage WHERE shortage_qty = 0` (all items). -/
def shelf_resolve_shortages (tbl : List ShortageRow) (iid : Nat) (qty_need : ℤ)
    (user : String) (now : ℕ) :
    List (ShortageRow × ℤ) × List ShortageRow × ℤ :=
  let l := shelfResolveLoop user now (shortageSelect tbl iid) tbl qty_need
  (l.1, l.2.1.filter fun r => decide (r.shortage_qty ≠ 0), l.2.2)

/-! ### Claim C9 — resolving with zero quantity is a no-op -/

theorem saResolveLoop_zero (user : String) (now : ℕ) (rows tbl : List ShortageRow) :
    saResolveLoop user now rows tbl 0 = ([], tbl, 0) := by
  cases rows <;> simp [saResolveLoop]

theorem shelfResolveLoop_zero (user : String) (now : ℕ) (rows tbl : List ShortageRow) :
    shelfResolveLoop user now rows tbl 0 = ([], tbl, 0) := by
  cases rows <;> simp [shelfResolveLoop]

/-- C9: resolving with a zero available quantity returns zero and leaves
every shortage record unchanged, in both resolvers.  (For the
`ShelfHandler` variant the data-model invariant that open outstanding
quantities are nonzero is needed: its trailing
`DELETE … WHERE shortage_qty = 0` would purge a zero-quantity row of any
item, but no committed state contains one.) -/
theorem resolve_shortages_zero_noop (tbl : List ShortageRow) (iid : Nat)
    (user : String) (now : ℕ) (hpos : ∀ r ∈ tbl, r.shortage_qty ≠ 0) :
    sa_resolve_shortages tbl iid 0 user now = ([], tbl, 0) ∧
      shelf_resolve_shortages tbl iid 0 user now = ([], tbl, 0) := by
  constructor
  · unfold sa_resolve_shortages
    exact saResolveLoop_zero user now _ tbl
  · unfold shelf_resolve_shortages
    rw [shelfResolveLoop_zero user now _ tbl]
    have : tbl.filter (fun r => decide (r.shortage_qty ≠ 0)) = tbl :=
      List.filter_eq_self.mpr fun r hr => by simpa using hpos r hr
    simp [this]
    exact hpos

/-- Witness for `resolve_shortages_zero_noop`. -/
theorem resolve_shortages_zero_noop_witness :
    sa_resolve_shortages [⟨1, 7, 5, none, false, none, none, 0⟩] 7 0 "U" 9
        = ([], [⟨1, 7, 5, none, false, none, none, 0⟩], 0) ∧
      shelf_resolve_shortages [⟨1, 7, 5, none, false, none, none, 0⟩] 7 0 "U" 9
        = ([], [⟨1, 7, 5, none, false, none, none, 0⟩], 0) :=
  resolve_shortages_zero_noop [⟨1, 7, 5, none, false, none, none, 0⟩] 7 "U" 9
    (by intro r hr; simp at hr; subst hr; simp)

/-! ### Effect lemmas for the two resolvers -/

theorem deleteShortage_eq (tbl : List ShortageRow) (sid : Nat) :
    deleteShortage tbl sid = deleteBy shortageKey sid tbl := rfl

theorem saUpdateShortage_eq (tbl : List ShortageRow) (sid : Nat) (take : ℤ)
    (user : String) (now : ℕ) :
    saUpdateShortage tbl sid take user now
      = updateBy shortageKey (saUpdateRow take user now) sid tbl := rfl

theorem shelfUpdateShortage_eq (tbl : List ShortageRow) (sid : Nat) (take : ℤ)
    (user : String) (now : ℕ) :
    shelfUpdateShortage tbl sid take user now
      = updateBy shortageKey (shelfUpdateRow take user now) sid tbl := rfl

theorem shortageSelect_sorted (tbl : List ShortageRow) (iid : Nat) :
    List.Sorted loggedLe (shortageSelect tbl iid) :=
  List.sorted_insertionSort loggedLe _

theorem shortageSelect_mem (tbl : List ShortageRow) (iid : Nat) :
    ∀ r ∈ shortageSelect tbl iid, r ∈ tbl ∧ r.itemid = iid ∧ r.resolved = false := by
  intro r hr
  have hperm := List.perm_insertionSort loggedLe
    (tbl.filter fun r => decide (r.itemid = iid ∧ r.resolved = false))
  have hmem : r ∈ tbl.filter fun r => decide (r.itemid = iid ∧ r.resolved = false) :=
    hperm.mem_iff.mp hr
  have := List.of_mem_filter hmem
  exact ⟨List.mem_of_mem_filter hmem, by simpa using this⟩

theorem shortageSelect_keys_nodup (tbl : List ShortageRow) (iid : Nat)
    (hnd : (tbl.map shortageKey).Nodup) :
    ((shortageSelect tbl iid).map shortageKey).Nodup := by
  have hperm := List.perm_insertionSort loggedLe
    (tbl.filter fun r => decide (r.itemid = iid ∧ r.resolved = false))
  have hsub : ((tbl.filter fun r => decide (r.itemid = iid ∧ r.resolved = false)).map
      shortageKey).Sublist (tbl.map shortageKey) :=
    (List.filter_sublist tbl).map shortageKey
  exact ((hperm.map shortageKey).nodup_iff).mpr (hnd.sublist hsub)

theorem shortageSelect_rows (tbl : List ShortageRow) (iid : Nat)
    (hnd : (tbl.map shortageKey).Nodup) :
    ∀ x ∈ shortageSelect tbl iid, rowsWith shortageKey tbl (shortageKey x) = [x] :=
  fun x hx => rowsWith_of_nodup shortageKey hnd (shortageSelect_mem tbl iid x hx).1

theorem saResolveLoop_accounting (user : String) (now : ℕ)
    (rows tbl : List ShortageRow) (rem : ℤ) :
    (saResolveLoop user now rows tbl rem).2.2
      = rem - (((saResolveLoop user now rows tbl rem).1.map Prod.snd).sum) := by
  induction rows generalizing tbl rem with
  | nil => simp [saResolveLoop]
  | cons r rs ih =>
    by_cases h0 : rem = 0
    · simp [saResolveLoop, h0]
    · simp only [saResolveLoop, h0, if_false, List.map_cons, List.sum_cons]
      have := ih (if min rem r.shortage_qty = r.shortage_qty
          then deleteShortage tbl r.shortageid
          else saUpdateShortage tbl r.shortageid (min rem r.shortage_qty) user now)
        (rem - min rem r.shortage_qty)
      omega

theorem shelfResolveLoop_accounting (user : String) (now : ℕ)
    (rows tbl : List ShortageRow) (rem : ℤ) :
    (shelfResolveLoop user now rows tbl rem).2.2
      = rem - (((shelfResolveLoop user now rows tbl rem).1.map Prod.snd).sum) := by
  induction rows generalizing tbl rem with
  | nil => simp [shelfResolveLoop]
  | cons r rs ih =>
    by_cases h0 : rem = 0
    · simp [shelfResolveLoop, h0]
    · simp only [shelfResolveLoop, h0, if_false, List.map_cons, List.sum_cons]
      have := ih (shelfUpdateShortage tbl r.shortageid (min rem r.shortage_qty) user now)
        (rem - min rem r.shortage_qty)
      omega

theorem saResolveLoop_front (user : String) (now : ℕ)
    (rows tbl : List ShortageRow) (rem : ℤ) :
    ((saResolveLoop user now rows tbl rem).1.map Prod.fst) <+: rows := by
  induction rows generalizing tbl rem with
  | nil => simp [saResolveLoop]
  | cons r rs ih =>
    by_cases h0 : rem = 0
    · simp [saResolveLoop, h0]
    · simp only [saResolveLoop, h0, if_false, List.map_cons]
      obtain ⟨t, ht⟩ := ih (if min rem r.shortage_qty = r.shortage_qty
          then deleteShortage tbl r.shortageid
          else saUpdateShortage tbl r.shortageid (min rem r.shortage_qty) user now)
        (rem - min rem r.shortage_qty)
      exact ⟨t, by rw [List.cons_append, ht]⟩

theorem shelfResolveLoop_front (user : String) (now : ℕ)
    (rows tbl : List ShortageRow) (rem : ℤ) :
    ((shelfResolveLoop user now rows tbl rem).1.map Prod.fst) <+: rows := by
  induction rows generalizing tbl rem with
  | nil => simp [shelfResolveLoop]
  | cons r rs ih =>
    by_cases h0 : rem = 0
    · simp [shelfResolveLoop, h0]
    · simp only [shelfResolveLoop, h0, if_false, List.map_cons]
      obtain ⟨t, ht⟩ := ih
        (shelfUpdateShortage tbl r.shortageid (min rem r.shortage_qty) user now)
        (rem - min rem r.shortage_qty)
      exact ⟨t, by rw [List.cons_append, ht]⟩

theorem saResolveLoop_rowsWith_other (user : String) (now : ℕ)
    (rows tbl : List ShortageRow) (rem : ℤ) {k : Nat}
    (hk : k ∉ rows.map shortageKey) :
    rowsWith shortageKey (saResolveLoop user now rows tbl rem).2.1 k
      = rowsWith shortageKey tbl k := by
  induction rows generalizing tbl rem with
  | nil => rfl
  | cons r rs ih =>
    simp only [List.map_cons, List.mem_cons, not_or] at hk
    have hk1 : k ≠ r.shortageid := hk.1
    by_cases h0 : rem = 0
    · simp [saResolveLoop, h0]
    · simp only [saResolveLoop, h0, if_false]
      rw [ih _ _ hk.2]
      by_cases htake : min rem r.shortage_qty = r.shortage_qty
      · simp only [htake, if_pos rfl, deleteShortage_eq]
        exact rowsWith_deleteBy_other shortageKey hk1 tbl
      · simp only [if_neg htake, saUpdateShortage_eq]
        exact rowsWith_updateBy_other shortageKey
          (saUpdateRow (min rem r.shortage_qty) user now) (fun _ => rfl) hk1 tbl

theorem shelfResolveLoop_rowsWith_other (user : String) (now : ℕ)
    (rows tbl : List ShortageRow) (rem : ℤ) {k : Nat}
    (hk : k ∉ rows.map shortageKey) :
    rowsWith shortageKey (shelfResolveLoop user now rows tbl rem).2.1 k
      = rowsWith shortageKey tbl k := by
  induction rows generalizing tbl rem with
  | nil => rfl
  | cons r rs ih =>
    simp only [List.map_cons, List.mem_cons, not_or] at hk
    have hk1 : k ≠ r.shortageid := hk.1
    by_cases h0 : rem = 0
    · simp [shelfResolveLoop, h0]
    · simp only [shelfResolveLoop, h0, if_false]
      rw [ih _ _ hk.2, shelfUpdateShortage_eq]
      exact rowsWith_updateBy_other shortageKey
        (shelfUpdateRow (min rem r.shortage_qty) user now) (fun _ => rfl) hk1 tbl

/-- Per-record effect of the `SellingAreaHandler` loop: a fully absorbed
record disappears from the table; a partially absorbed one is updated
with resolver and timestamp stamped. -/
theorem saResolveLoop_effect (user : String) (now : ℕ)
    (rows tbl : List ShortageRow) (rem : ℤ)
    (hrows : ∀ x ∈ rows, rowsWith shortageKey tbl (shortageKey x) = [x])
    (hnd : (rows.map shortageKey).Nodup) :
    ∀ p ∈ (saResolveLoop user now rows tbl rem).1,
      (p.2 = p.1.shortage_qty →
        rowsWith shortageKey (saResolveLoop user now rows tbl rem).2.1
          (shortageKey p.1) = []) ∧
      (p.2 ≠ p.1.shortage_qty →
        rowsWith shortageKey (saResolveLoop user now rows tbl rem).2.1
          (shortageKey p.1) = [saUpdateRow p.2 user now p.1]) := by
  induction rows generalizing tbl rem with
  | nil => intro p hp; simp [saResolveLoop] at hp
  | cons r rs ih =>
    simp only [List.map_cons, List.nodup_cons] at hnd
    by_cases h0 : rem = 0
    · intro p hp; simp [saResolveLoop, h0] at hp
    · intro p hp
      simp only [saResolveLoop, h0, if_false, List.mem_cons] at hp ⊢
      by_cases htake : min rem r.shortage_qty = r.shortage_qty
      · rw [if_pos htake] at hp ⊢
        rcases hp with rfl | hp
        · refine ⟨fun _ => ?_, fun hne => absurd htake hne⟩
          show rowsWith shortageKey (saResolveLoop user now rs
            (deleteShortage tbl r.shortageid) (rem - min rem r.shortage_qty)).2.1
              r.shortageid = []
          have hk : r.shortageid ∉ rs.map shortageKey := hnd.1
          rw [saResolveLoop_rowsWith_other user now rs _ _ hk, deleteShortage_eq,
            rowsWith_deleteBy_self shortageKey r.shortageid tbl]
        · have hrows' : ∀ x ∈ rs, rowsWith shortageKey (deleteShortage tbl r.shortageid)
              (shortageKey x) = [x] := by
            intro x hx
            have hne : shortageKey x ≠ r.shortageid := by
              intro h
              have hmem := List.mem_map_of_mem shortageKey hx
              rw [h] at hmem
              exact hnd.1 hmem
            rw [deleteShortage_eq, rowsWith_deleteBy_other shortageKey hne tbl]
            exact hrows x (List.mem_cons_of_mem r hx)
          exact ih (deleteShortage tbl r.shortageid) (rem - min rem r.shortage_qty)
            hrows' hnd.2 p hp
      · rw [if_neg htake] at hp ⊢
        have hrem : min rem r.shortage_qty = rem :=
          (min_choice rem r.shortage_qty).resolve_right htake
        rw [hrem, sub_self,
          saResolveLoop_zero user now rs
            (saUpdateShortage tbl r.shortageid rem user now)] at hp ⊢
        rcases hp with rfl | hp2
        swap
        · exact absurd hp2 (by simp)
        refine ⟨fun h => ?_, fun _ => ?_⟩
        · have h' : rem = r.shortage_qty := h
          exact (htake (by rw [h', min_self])).elim
        · show rowsWith shortageKey
            (saUpdateShortage tbl r.shortageid rem user now) r.shortageid
              = [saUpdateRow rem user now r]
          have hr := hrows r (List.mem_cons_self r rs)
          rw [show shortageKey r = r.shortageid from rfl] at hr
          rw [saUpdateShortage_eq,
            rowsWith_updateBy_self shortageKey (saUpdateRow rem user now)
              (fun _ => rfl) r.shortageid tbl, hr]
          rfl

/-- Per-record effect of the `ShelfHandler` loop: every processed record
is rewritten by `shelfUpdateRow` with the take of its iteration. -/
theorem shelfResolveLoop_effect (user : String) (now : ℕ)
    (rows tbl : List ShortageRow) (rem : ℤ)
    (hrows : ∀ x ∈ rows, rowsWith shortageKey tbl (shortageKey x) = [x])
    (hnd : (rows.map shortageKey).Nodup) :
    ∀ p ∈ (shelfResolveLoop user now rows tbl rem).1,
      rowsWith shortageKey (shelfResolveLoop user now rows tbl rem).2.1
        (shortageKey p.1) = [shelfUpdateRow p.2 user now p.1] := by
  induction rows generalizing tbl rem with
  | nil => intro p hp; simp [shelfResolveLoop] at hp
  | cons r rs ih =>
    simp only [List.map_cons, List.nodup_cons] at hnd
    by_cases h0 : rem = 0
    · intro p hp; simp [shelfResolveLoop, h0] at hp
    · intro p hp
      simp only [shelfResolveLoop, h0, if_false, List.mem_cons] at hp ⊢
      rcases hp with rfl | hp
      · show rowsWith shortageKey (shelfResolveLoop user now rs
          (shelfUpdateShortage tbl r.shortageid (min rem r.shortage_qty) user now)
          (rem - min rem r.shortage_qty)).2.1 r.shortageid
            = [shelfUpdateRow (min rem r.shortage_qty) user now r]
        have hk : r.shortageid ∉ rs.map shortageKey := hnd.1
        rw [shelfResolveLoop_rowsWith_other user now rs _ _ hk,
          shelfUpdateShortage_eq,
          rowsWith_updateBy_self shortageKey
            (shelfUpdateRow (min rem r.shortage_qty) user now) (fun _ => rfl)
            r.shortageid tbl]
        have hr := hrows r (List.mem_cons_self r rs)
        rw [show shortageKey r = r.shortageid from rfl] at hr
        rw [hr]
        rfl
      · have hrows' : ∀ x ∈ rs, rowsWith shortageKey
            (shelfUpdateShortage tbl r.shortageid (min rem r.shortage_qty) user now)
            (shortageKey x) = [x] := by
          intro x hx
          have hne : shortageKey x ≠ r.shortageid := by
            intro h
            have hmem := List.mem_map_of_mem shortageKey hx
            rw [h] at hmem
            exact hnd.1 hmem
          rw [shelfUpdateShortage_eq,
            rowsWith_updateBy_other shortageKey
              (shelfUpdateRow (min rem r.shortage_qty) user now) (fun _ => rfl)
              hne tbl]
          exact hrows x (List.mem_cons_of_mem r hx)
        exact ih _ (rem - min rem r.shortage_qty) hrows' hnd.2 p hp

/-! ### Claim C4 — shortage resolution -/

/-- C4 (counterexample): `ShelfHandler.resolve_shortages` absorbing 3 of
an outstanding 5 leaves the partially absorbed record with
`resolved_at = NULL` — the `CASE WHEN … THEN CURRENT_TIMESTAMP END`
yields NULL for a partial absorption, so no timestamp is stamped. -/
theorem C4_counterexample :
    (shelf_resolve_shortages [⟨1, 7, 5, none, false, none, none, 0⟩] 7 3 "U" 9).2.1
      = [⟨1, 7, 2, some 3, false, some "U", none, 0⟩] := by
  simp [shelf_resolve_shortages, shelfResolveLoop, shortageSelect,
    shelfUpdateShortage, shelfUpdateRow, List.insertionSort, List.orderedInsert,
    shelfResolveLoop_zero]

/-- C4 (amended): for `qty_need ≥ 0`, both resolvers consume the open
records of the item oldest-first (by `logged_at`); a record whose
outstanding quantity is fully taken is deleted; a partially absorbed
record keeps its identity with the outstanding quantity reduced by the
take and the resolved counter increased by it; the return value is
`qty_need` minus the total take.  `SellingAreaHandler.resolve_shortages`
stamps resolver *and* timestamp on a partial record (as the claim says),
while `ShelfHandler.resolve_shortages` stamps only the resolver and
resets `resolved_at` to NULL. -/
theorem resolve_shortages_behavior (tbl : List ShortageRow) (iid : Nat)
    (qty_need : ℤ) (user : String) (now : ℕ)
    (hq : 0 ≤ qty_need) (hnd : (tbl.map shortageKey).Nodup) :
    ((sa_resolve_shortages tbl iid qty_need user now).2.2
        = qty_need - (((sa_resolve_shortages tbl iid qty_need user now).1.map
            Prod.snd).sum)) ∧
    (((sa_resolve_shortages tbl iid qty_need user now).1.map Prod.fst)
        <+: shortageSelect tbl iid) ∧
    List.Sorted loggedLe
      ((sa_resolve_shortages tbl iid qty_need user now).1.map Prod.fst) ∧
    (∀ p ∈ (sa_resolve_shortages tbl iid qty_need user now).1,
      (p.2 = p.1.shortage_qty →
        rowsWith shortageKey (sa_resolve_shortages tbl iid qty_need user now).2.1
          (shortageKey p.1) = []) ∧
      (p.2 ≠ p.1.shortage_qty →
        rowsWith shortageKey (sa_resolve_shortages tbl iid qty_need user now).2.1
          (shortageKey p.1) = [saUpdateRow p.2 user now p.1])) ∧
    ((shelf_resolve_shortages tbl iid qty_need user now).2.2
        = qty_need - (((shelf_resolve_shortages tbl iid qty_need user now).1.map
            Prod.snd).sum)) ∧
    (((shelf_resolve_shortages tbl iid qty_need user now).1.map Prod.fst)
        <+: shortageSelect tbl iid) ∧
    List.Sorted loggedLe
      ((shelf_resolve_shortages tbl iid qty_need user now).1.map Prod.fst) ∧
    (∀ p ∈ (shelf_resolve_shortages tbl iid qty_need user now).1,
      (p.2 = p.1.shortage_qty →
        rowsWith shortageKey (shelf_resolve_shortages tbl iid qty_need user now).2.1
          (shortageKey p.1) = []) ∧
      (p.2 ≠ p.1.shortage_qty →
        rowsWith shortageKey (shelf_resolve_shortages tbl iid qty_need user now).2.1
          (shortageKey p.1) = [shelfUpdateRow p.2 user now p.1])) := by
  have hrows := shortageSelect_rows tbl iid hnd
  have hndsel := shortageSelect_keys_nodup tbl iid hnd
  refine ⟨saResolveLoop_accounting user now _ tbl qty_need,
    saResolveLoop_front user now _ tbl qty_need,
    (shortageSelect_sorted tbl iid).sublist
      (saResolveLoop_front user now _ tbl qty_need).sublist,
    saResolveLoop_effect user now _ tbl qty_need hrows hndsel,
    shelfResolveLoop_accounting user now _ tbl qty_need,
    shelfResolveLoop_front user now _ tbl qty_need,
    (shortageSelect_sorted tbl iid).sublist
      (shelfResolveLoop_front user now _ tbl qty_need).sublist,
    ?_⟩
  intro p hp
  have heff := shelfResolveLoop_effect user now _ tbl qty_need hrows hndsel p hp
  have hfilter : rowsWith shortageKey
      (shelf_resolve_shortages tbl iid qty_need user now).2.1 (shortageKey p.1)
      = (rowsWith shortageKey
          (shelfResolveLoop user now (shortageSelect tbl iid) tbl qty_need).2.1
          (shortageKey p.1)).filter (fun r => decide (r.shortage_qty ≠ 0)) := by
    show rowsWith shortageKey (((shelfResolveLoop user now (shortageSelect tbl iid)
      tbl qty_need).2.1).filter fun r => decide (r.shortage_qty ≠ 0))
        (shortageKey p.1) = _
    exact rowsWith_filter shortageKey _ _ _
  rw [hfilter, heff]
  constructor
  · intro hfull
    have : (shelfUpdateRow p.2 user now p.1).shortage_qty = 0 := by
      simp [shelfUpdateRow, hfull]
    simp [List.filter_cons, this]
  · intro hne
    have : (shelfUpdateRow p.2 user now p.1).shortage_qty ≠ 0 := by
      simp only [shelfUpdateRow]
      intro h
      exact hne (by omega)
    simp [List.filter_cons, this]

/-- Witness for `resolve_shortages_behavior`: two open records, the
older fully absorbed, the newer partially. -/
theorem resolve_shortages_behavior_witness :
    ((sa_resolve_shortages [⟨1, 7, 2, none, false, none, none, 5⟩,
        ⟨2, 7, 4, none, false, none, none, 3⟩] 7 5 "U" 9).2.2
      = 5 - (((sa_resolve_shortages [⟨1, 7, 2, none, false, none, none, 5⟩,
        ⟨2, 7, 4, none, false, none, none, 3⟩] 7 5 "U" 9).1.map Prod.snd).sum)) ∧
    List.Sorted loggedLe
      ((sa_resolve_shortages [⟨1, 7, 2, none, false, none, none, 5⟩,
        ⟨2, 7, 4, none, false, none, none, 3⟩] 7 5 "U" 9).1.map Prod.fst) := by
  have h := resolve_shortages_behavior
    [⟨1, 7, 2, none, false, none, none, 5⟩, ⟨2, 7, 4, none, false, none, none, 3⟩]
    7 5 "U" 9 (by norm_num) (by simp [shortageKey])
  exact ⟨h.1, h.2.2.1⟩

/-! ## Shelf replenishment (`ShelfHandler.restock_item`) and the
warehouse replenishment of `InventoryHandler.restock_items_bulk`

`restock_item` reads the per-item shelf KPIs, resolves open shortages
with the needed quantity first, then moves warehouse layers
(oldest-expiry, cheapest-cost first) onto the shelf for the remainder,
and logs a fresh shortage for anything still missing.
`restock_items_bulk` inserts new warehouse layers for the full need and
never touches the shortage ledger (its purchase-order tables and retry
logic are modelled in the sequence-guard section). -/

/-- One row of the `inventory` (warehouse) table as the refill reads it. -/
structure InvRow where
  itemid : Nat
  quantity : ℤ
  expirationdate : ℕ
  cost_per_unit : ℚ
deriving DecidableEq

/-- Per-item shelf settings (`shelfthreshold`, `shelfaverage`) from the
`item` table, after the reader's integer coalescing. -/
structure ItemMeta where
  itemid : Nat
  shelfthreshold : ℤ
  shelfaverage : ℤ
deriving DecidableEq

/-- The tables `restock_item` reads and writes, with the id counters and
the transaction timestamp. -/
structure ShopState where
  items : List ItemMeta
  shelf : List ShelfRow
  inventory : List InvRow
  shortages : List ShortageRow
  nextShelfId : Nat
  nextShortageId : Nat
  now : ℕ
deriving DecidableEq

/-- Total on-shelf quantity of an item (`COALESCE(SUM(s.quantity),0)`). -/
def shelfTotal (shelf : List ShelfRow) (iid : Nat) : ℤ :=
  ((shelf.filter fun r => decide (r.itemid = iid)).map fun r => r.quantity).sum

/-- The KPI row of the item (`get_shelf_quantity_by_item` filtered to
one item); `none` models the empty-frame crash for an unknown item. -/
def lookupMeta (items : List ItemMeta) (iid : Nat) : Option ItemMeta :=
  items.find? fun m => decide (m.itemid = iid)

/-- `ORDER BY expirationdate, cost_per_unit` on warehouse layers. -/
def invLe (a b : InvRow) : Prop :=
  a.expirationdate < b.expirationdate ∨
    (a.expirationdate = b.expirationdate ∧ a.cost_per_unit ≤ b.cost_per_unit)

instance : DecidableRel invLe := fun a b => by
  unfold invLe
  infer_instance

instance : IsTotal InvRow invLe :=
  ⟨fun a b => by
    unfold invLe
    rcases Nat.lt_trichotomy a.expirationdate b.expirationdate with h | h | h
    · exact Or.inl (Or.inl h)
    · rcases le_total a.cost_per_unit b.cost_per_unit with hc | hc
      · exact Or.inl (Or.inr ⟨h, hc⟩)
      · exact Or.inr (Or.inr ⟨h.symm, hc⟩)
    · exact Or.inr (Or.inl h)⟩

instance : IsTrans InvRow invLe :=
  ⟨fun a b c hab hbc => by
    unfold invLe at *
    rcases hab with h1 | ⟨h1, h1c⟩ <;> rcases hbc with h2 | ⟨h2, h2c⟩
    · exact Or.inl (h1.trans h2)
    · exact Or.inl (h2 ▸ h1)
    · exact Or.inl (h1 ▸ h2)
    · exact Or.inr ⟨h1.trans h2, h1c.trans h2c⟩⟩

/-- The layer query of `restock_item`:
`SELECT expirationdate, quantity, cost_per_unit FROM inventory WHERE
itemid = %s AND quantity > 0 ORDER BY expirationdate, cost_per_unit`. -/
def invSelect (inv : List InvRow) (iid : Nat) : List InvRow :=
  List.insertionSort invLe (inv.filter fun r => decide (r.itemid = iid ∧ 0 < r.quantity))

/-- `ShelfHandler.add_to_shelf`: upsert on conflict key
(`itemid, expirationdate, cost_per_unit`), adding the quantity and
stamping `lastupdated` on conflict.  (The append-only `shelfentries`
audit insert is not modelled.) -/
def addToShelf (st : ShopState) (iid : Nat) (exp : ℕ) (qty : ℤ) (cpu : ℚ) : ShopState :=
  if st.shelf.any fun r =>
      decide (r.itemid = iid ∧ r.expirationdate = exp ∧ r.cost_per_unit = cpu) then
    { st with shelf := st.shelf.map fun r =>
        if r.itemid = iid ∧ r.expirationdate = exp ∧ r.cost_per_unit = cpu then
          { r with quantity := r.quantity + qty, lastupdated := some st.now }
        else r }
  else
    { st with shelf := st.shelf ++ [⟨st.nextShelfId, iid, qty, exp, cpu, none⟩],
              nextShelfId := st.nextShelfId + 1 }

/-- `ShelfHandler.transfer_from_inventory`: decrement the matching
warehouse layer(s) with sufficient quantity, raising (`none`) when no
row matches, then upsert the quantity onto the shelf. -/
def transferFromInventory (st : ShopState) (iid : Nat) (exp : ℕ) (qty : ℤ)
    (cpu : ℚ) : Option ShopState :=
  if st.inventory.any fun r =>
      decide (r.itemid = iid ∧ r.expirationdate = exp ∧ r.cost_per_unit = cpu ∧
        qty ≤ r.quantity) then
    some (addToShelf
      { st with inventory := st.inventory.map fun r =>
          if r.itemid = iid ∧ r.expirationdate = exp ∧ r.cost_per_unit = cpu ∧
              qty ≤ r.quantity then
            { r with quantity := r.quantity - qty }
          else r }
      iid exp qty cpu)
  else none

/-- The layer loop of `restock_item`: take `min(need, quantity)` from
each layer in order, stopping once the need is covered. -/
def transferLoop (iid : Nat) : ShopState → List InvRow → ℤ → Option (ShopState × ℤ)
  | st, [], need => some (st, need)
  | st, lyr :: rest, need =>
    match transferFromInventory st iid lyr.expirationdate (min need lyr.quantity)
        lyr.cost_per_unit with
    | none => none
    | some st1 =>
      if need - min need lyr.quantity ≤ 0 then some (st1, need - min need lyr.quantity)
      else transferLoop iid st1 rest (need - min need lyr.quantity)

/-- `ShelfHandler.restock_item`: bring the item's shelf stock up to its
threshold/average, resolving open shortages first, then moving
warehouse layers, then logging any remaining need as a new shortage. -/
def restock_item (st : ShopState) (iid : Nat) (user : String) : Option ShopState :=
  match lookupMeta st.items iid with
  | none => none
  | some m =>
    let current := shelfTotal st.shelf iid
    let threshold := m.shelfthreshold
    let target := if m.shelfaverage = 0 then m.shelfthreshold else m.shelfaverage
    if threshold ≤ current then some st
    else
      let r := shelf_resolve_shortages st.shortages iid
        (max (target - current) (threshold - current)) user st.now
      let st1 := { st with shortages := r.2.1 }
      if r.2.2 ≤ 0 then some st1
      else
        match transferLoop iid st1 (invSelect st1.inventory iid) r.2.2 with
        | none => none
        | some (st2, need2) =>
          if 0 < need2 then
            some { st2 with
              shortages := st2.shortages ++
                [⟨st2.nextShortageId, iid, need2, none, false, none, none, st2.now⟩],
              nextShortageId := st2.nextShortageId + 1 }
          else some st2

/-- `InventoryHandler.FIX_EXPIRY = date(2027, 7, 21)`. -/
def FIX_EXPIRY : ℕ := 20270721

/-- The warehouse-layer insertions of
`InventoryHandler.restock_items_bulk` / `_restock_supplier` step 3: one
new `inventory` row per needed item, at cost
`round(sellingprice * 0.75, 2)` (or 0 without a reference price), with
the fixed expiry.  No shortage-ledger access exists anywhere in
`inventory_handler.py`. -/
def restock_items_bulk_inventory (st : ShopState)
    (needs : List (Nat × ℤ × ℚ)) : ShopState :=
  { st with inventory := st.inventory ++ needs.map fun x =>
      ⟨x.1, x.2.1, FIX_EXPIRY,
        if x.2.2 = 0 then 0 else round2 (x.2.2 * (3/4))⟩ }

/-! ### Lemmas for claim C6 -/

theorem addToShelf_shortages (st : ShopState) (iid : Nat) (exp : ℕ) (qty : ℤ)
    (cpu : ℚ) :
    (addToShelf st iid exp qty cpu).shortages = st.shortages ∧
      (addToShelf st iid exp qty cpu).nextShortageId = st.nextShortageId := by
  unfold addToShelf
  split <;> exact ⟨rfl, rfl⟩

theorem transferFromInventory_some {st : ShopState} {iid : Nat} {exp : ℕ}
    {qty : ℤ} {cpu : ℚ} {st1 : ShopState}
    (h : transferFromInventory st iid exp qty cpu = some st1) :
    st1.shortages = st.shortages ∧ st1.nextShortageId = st.nextShortageId := by
  unfold transferFromInventory at h
  split at h
  · injection h with h
    subst h
    exact addToShelf_shortages _ iid exp qty cpu
  · cases h

theorem transferLoop_some (iid : Nat) (layers : List InvRow) :
    ∀ (st : ShopState) (need : ℤ) (res : ShopState × ℤ),
      transferLoop iid st layers need = some res →
      res.1.shortages = st.shortages ∧ res.1.nextShortageId = st.nextShortageId := by
  induction layers with
  | nil =>
    intro st need res h
    unfold transferLoop at h
    injection h with h
    subst h
    exact ⟨rfl, rfl⟩
  | cons lyr rest ih =>
    intro st need res h
    unfold transferLoop at h
    cases htf : transferFromInventory st iid lyr.expirationdate
        (min need lyr.quantity) lyr.cost_per_unit with
    | none => simp only [htf] at h; cases h
    | some st1 =>
      simp only [htf] at h
      obtain ⟨hs, hn⟩ := transferFromInventory_some htf
      by_cases hle : need - min need lyr.quantity ≤ 0
      · rw [if_pos hle] at h
        injection h with h
        subst h
        exact ⟨hs, hn⟩
      · rw [if_neg hle] at h
        obtain ⟨hs2, hn2⟩ := ih st1 _ res h
        exact ⟨hs2.trans hs, hn2.trans hn⟩

/-- When the `ShelfHandler` resolver loop ends with a positive
remainder, every queried record was fully absorbed. -/
theorem shelfResolveLoop_full_take (user : String) (now : ℕ)
    (rows tbl : List ShortageRow) (rem : ℤ)
    (hfin : 0 < (shelfResolveLoop user now rows tbl rem).2.2) :
    ∀ x ∈ rows, (x, x.shortage_qty) ∈ (shelfResolveLoop user now rows tbl rem).1 := by
  induction rows generalizing tbl rem with
  | nil => intro x hx; cases hx
  | cons r rs ih =>
    intro x hx
    by_cases h0 : rem = 0
    · exfalso
      have : (shelfResolveLoop user now (r :: rs) tbl rem).2.2 = 0 := by
        simp [shelfResolveLoop, h0]
      omega
    · by_cases htake : min rem r.shortage_qty = r.shortage_qty
      · simp only [shelfResolveLoop, h0, if_false, List.mem_cons] at hfin ⊢
        have hfin2 : 0 < (shelfResolveLoop user now rs
            (shelfUpdateShortage tbl r.shortageid (min rem r.shortage_qty) user now)
            (rem - min rem r.shortage_qty)).2.2 := hfin
        rcases List.mem_cons.mp hx with rfl | hx2
        · exact Or.inl (by rw [htake])
        · exact Or.inr (ih _ _ hfin2 x hx2)
      · exfalso
        have hrem : min rem r.shortage_qty = rem :=
          (min_choice rem r.shortage_qty).resolve_right htake
        have : (shelfResolveLoop user now (r :: rs) tbl rem).2.2 = 0 := by
          simp only [shelfResolveLoop, h0, if_false]
          rw [hrem, sub_self, shelfResolveLoop_zero]
        omega

/-! ### Claim C6 — shortage priority over buffer stock -/

/-- C6 (counterexample): warehouse replenishment inserts a fresh stock
layer for item 7 while the open shortage record for item 7 is left
untouched — `restock_items_bulk` never resolves shortages before (or
after) inserting layers. -/
theorem C6_counterexample :
    (restock_items_bulk_inventory
        ⟨[], [], [], [⟨1, 7, 4, none, false, none, none, 0⟩], 0, 10, 5⟩
        [(7, 4, 2)]).shortages
      = [⟨1, 7, 4, none, false, none, none, 0⟩] ∧
    (restock_items_bulk_inventory
        ⟨[], [], [], [⟨1, 7, 4, none, false, none, none, 0⟩], 0, 10, 5⟩
        [(7, 4, 2)]).inventory
      = [⟨7, 4, FIX_EXPIRY, round2 (2 * (3/4))⟩] := by
  refine ⟨rfl, ?_⟩
  simp only [restock_items_bulk_inventory, List.map_cons, List.map_nil,
    List.nil_append]
  rw [if_neg (by norm_num : ¬ (2 : ℚ) = 0)]

/-- C6 (amended): shelf replenishment resolves open shortages before
moving any stock — if a shortage record of the item that was open
before `restock_item` is still open afterwards (same id), the shelf
total of the item was not raised at all.  Warehouse replenishment
(`restock_items_bulk`), by contrast, inserts its new layers without
resolving any shortage records. -/
theorem replenishment_shortage_priority (st : ShopState) (iid : Nat) (user : String)
    (st2 : ShopState)
    (hpos : ∀ r ∈ st.shortages, r.resolved = false → 0 < r.shortage_qty)
    (hnd : (st.shortages.map shortageKey).Nodup)
    (hfresh : ∀ r ∈ st.shortages, r.shortageid < st.nextShortageId)
    (hrun : restock_item st iid user = some st2) :
    ((∃ r ∈ st.shortages, r.itemid = iid ∧ r.resolved = false ∧
        ∃ r2 ∈ st2.shortages, r2.shortageid = r.shortageid ∧ r2.resolved = false) →
      shelfTotal st2.shelf iid = shelfTotal st.shelf iid) ∧
    (∀ needs, (restock_items_bulk_inventory st needs).shortages = st.shortages) := by
  refine ⟨?_, fun needs => rfl⟩
  rintro ⟨r, hrmem, hritem, hropen, r2, hr2mem, hr2id, hr2open⟩
  simp only [restock_item] at hrun
  cases hlk : lookupMeta st.items iid with
  | none => simp only [hlk] at hrun; cases hrun
  | some m =>
    simp only [hlk] at hrun
    by_cases hcur : m.shelfthreshold ≤ shelfTotal st.shelf iid
    · rw [if_pos hcur] at hrun
      injection hrun with h
      subst h
      rfl
    · rw [if_neg hcur] at hrun
      by_cases hneed1 : (shelf_resolve_shortages st.shortages iid
          (max ((if m.shelfaverage = 0 then m.shelfthreshold else m.shelfaverage)
            - shelfTotal st.shelf iid)
            (m.shelfthreshold - shelfTotal st.shelf iid)) user st.now).2.2 ≤ 0
      · rw [if_pos hneed1] at hrun
        injection hrun with h
        subst h
        rfl
      · rw [if_neg hneed1] at hrun
        exfalso
        have hrem : 0 < (shelf_resolve_shortages st.shortages iid
            (max ((if m.shelfaverage = 0 then m.shelfthreshold else m.shelfaverage)
              - shelfTotal st.shelf iid)
              (m.shelfthreshold - shelfTotal st.shelf iid)) user st.now).2.2 := by
          omega
        have hsel : r ∈ shortageSelect st.shortages iid := by
          have : r ∈ st.shortages.filter
              fun x => decide (x.itemid = iid ∧ x.resolved = false) :=
            List.mem_filter.mpr ⟨hrmem, by simp [hritem, hropen]⟩
          exact (List.perm_insertionSort loggedLe _).mem_iff.mpr this
        have hproc := shelfResolveLoop_full_take user st.now
          (shortageSelect st.shortages iid) st.shortages
          (max ((if m.shelfaverage = 0 then m.shelfthreshold else m.shelfaverage)
            - shelfTotal st.shelf iid)
            (m.shelfthreshold - shelfTotal st.shelf iid)) hrem r hsel
        have heff := shelfResolveLoop_effect user st.now
          (shortageSelect st.shortages iid) st.shortages
          (max ((if m.shelfaverage = 0 then m.shelfthreshold else m.shelfaverage)
            - shelfTotal st.shelf iid)
            (m.shelfthreshold - shelfTotal st.shelf iid))
          (shortageSelect_rows st.shortages iid hnd)
          (shortageSelect_keys_nodup st.shortages iid hnd)
          (r, r.shortage_qty) hproc
        have hzero : (shelfUpdateRow r.shortage_qty user st.now r).shortage_qty = 0 := by
          simp [shelfUpdateRow]
        have hnone : rowsWith shortageKey (shelf_resolve_shortages st.shortages iid
            (max ((if m.shelfaverage = 0 then m.shelfthreshold else m.shelfaverage)
              - shelfTotal st.shelf iid)
              (m.shelfthreshold - shelfTotal st.shelf iid)) user st.now).2.1
            (shortageKey r) = [] := by
          show rowsWith shortageKey
            ((shelfResolveLoop user st.now (shortageSelect st.shortages iid)
              st.shortages _).2.1.filter fun x => decide (x.shortage_qty ≠ 0))
            (shortageKey r) = []
          rw [rowsWith_filter, heff]
          simp [List.filter_cons, hzero]
        cases htl : transferLoop iid
            { st with shortages := (shelf_resolve_shortages st.shortages iid
              (max ((if m.shelfaverage = 0 then m.shelfthreshold else m.shelfaverage)
                - shelfTotal st.shelf iid)
                (m.shelfthreshold - shelfTotal st.shelf iid)) user st.now).2.1 }
            (invSelect st.inventory iid)
            (shelf_resolve_shortages st.shortages iid
              (max ((if m.shelfaverage = 0 then m.shelfthreshold else m.shelfaverage)
                - shelfTotal st.shelf iid)
                (m.shelfthreshold - shelfTotal st.shelf iid)) user st.now).2.2 with
        | none => simp only [htl] at hrun; cases hrun
        | some p =>
          obtain ⟨st3, need2⟩ := p
          simp only [htl] at hrun
          obtain ⟨hs, hn⟩ := transferLoop_some iid _ _ _ _ htl
          have hr2_not_old : r2 ∉ st3.shortages := by
            intro hmem
            rw [hs] at hmem
            have : r2 ∈ rowsWith shortageKey (shelf_resolve_shortages st.shortages iid
                (max ((if m.shelfaverage = 0 then m.shelfthreshold else m.shelfaverage)
                  - shelfTotal st.shelf iid)
                  (m.shelfthreshold - shelfTotal st.shelf iid)) user st.now).2.1
                (shortageKey r) := by
              refine (mem_rowsWith shortageKey).mpr ⟨hmem, hr2id⟩
            rw [hnone] at this
            cases this
          by_cases hneed2 : 0 < need2
          · rw [if_pos hneed2] at hrun
            injection hrun with h
            subst h
            simp only [List.mem_append, List.mem_singleton] at hr2mem
            rcases hr2mem with hmem | hmem
            · exact hr2_not_old hmem
            · have hid : r2.shortageid = st3.nextShortageId := by rw [hmem]
              have hn2 : st3.nextShortageId = st.nextShortageId := hn
              have := hfresh r hrmem
              omega
          · rw [if_neg hneed2] at hrun
            injection hrun with h
            subst h
            exact hr2_not_old hr2mem

/-- Witness for `replenishment_shortage_priority` at a state whose shelf
stock is already at threshold. -/
theorem replenishment_shortage_priority_witness :
    restock_item ⟨[⟨7, 0, 0⟩], [], [], [], 0, 0, 0⟩ 7 "U"
        = some ⟨[⟨7, 0, 0⟩], [], [], [], 0, 0, 0⟩ ∧
      (restock_items_bulk_inventory ⟨[⟨7, 0, 0⟩], [], [], [], 0, 0, 0⟩
        [(7, 4, 2)]).shortages = [] := by
  have hrun : restock_item (⟨[⟨7, 0, 0⟩], [], [], [], 0, 0, 0⟩ : ShopState) 7 "U"
      = some ⟨[⟨7, 0, 0⟩], [], [], [], 0, 0, 0⟩ := by
    simp [restock_item, lookupMeta, shelfTotal, List.find?]
  have h := replenishment_shortage_priority ⟨[⟨7, 0, 0⟩], [], [], [], 0, 0, 0⟩ 7 "U"
    ⟨[⟨7, 0, 0⟩], [], [], [], 0, 0, 0⟩ (by intro r hr; simp at hr) (by simp)
    (by intro r hr; simp at hr) hrun
  exact ⟨hrun, h.2 [(7, 4, 2)]⟩

/-! ## The sequence guard (`InventoryHandler._restock_supplier`)

Each attempt of the per-supplier transaction first realigns every
involved sequence with `_sync_sequence`
(`setval(seq, COALESCE(MAX(pk), 0), true)`, so the next `nextval`
returns `max + 1`) and then runs the inserts.  `except
pgerr.UniqueViolation` rolls the transaction back — PostgreSQL
sequences are non-transactional, so the sequence advance persists while
the inserted rows do not — and `for attempt in (1, 2)` retries exactly
once; a violation on the retry is re-raised.  The model follows the
`poid` key of the `purchaseorders` header insert; the rows concurrent
writers commit between our sync and our insert are the `interf`
arguments. -/

/-- Keys present in the table and the sequence behind them
(`nextval` returns `seq + 1`). -/
structure SeqState where
  keys : List Nat
  seq : Nat
deriving DecidableEq

/-- `COALESCE(MAX(pk), 0)`. -/
def maxKey (ks : List Nat) : Nat := ks.foldr max 0

/-- `_sync_sequence`: `setval(seq, COALESCE(MAX(pk), 0), true)`. -/
def syncSequence (s : SeqState) : SeqState := { s with seq := maxKey s.keys }

/-- One attempt of the transaction: sync the sequence, let interfering
writers commit their keys, draw `nextval` and insert the header row.
Returns success, the resulting state, and the key the insert used; on a
unique violation our row is rolled back while the interferers' rows and
the sequence advance remain. -/
def attemptTx (s : SeqState) (interf : List Nat) : Bool × SeqState × Nat :=
  let s1 := syncSequence s
  let tbl := s1.keys ++ interf
  let k := s1.seq + 1
  if k ∈ tbl then (false, ⟨tbl, k⟩, k)
  else (true, ⟨tbl ++ [k], k⟩, k)

/-- `_restock_supplier`: run the attempt; after a `UniqueViolation`,
roll back and retry exactly once; a second violation propagates. -/
def restock_supplier (s : SeqState) (interf1 interf2 : List Nat) :
    Except Unit (SeqState × Nat) :=
  let a1 := attemptTx s interf1
  if a1.1 then Except.ok (a1.2.1, a1.2.2)
  else
    let a2 := attemptTx a1.2.1 interf2
    if a2.1 then Except.ok (a2.2.1, a2.2.2)
    else Except.error ()

theorem attemptTx_key (s : SeqState) (interf : List Nat) :
    (attemptTx s interf).2.2 = maxKey s.keys + 1 := by
  simp only [attemptTx, syncSequence]
  split <;> rfl

theorem attemptTx_fail_keys {s : SeqState} {interf : List Nat}
    (h : (attemptTx s interf).1 = false) :
    (attemptTx s interf).2.1.keys = s.keys ++ interf := by
  simp only [attemptTx, syncSequence] at h ⊢
  split at h <;> simp_all

theorem maxKey_append (xs ys : List Nat) :
    maxKey (xs ++ ys) = max (maxKey xs) (maxKey ys) := by
  induction xs with
  | nil => simp [maxKey]
  | cons x xs ih =>
    simp only [maxKey, List.foldr_cons, List.cons_append] at ih ⊢
    rw [ih, Nat.max_assoc]

/-! ### Claim C5 — duplicate-key retry protocol -/

/-- C5: a unique violation inside the supplier transaction rolls the
transaction back (our row is absent, only the pre-existing and
concurrently committed keys remain); the retry re-syncs the sequence so
its insert draws `max(existing key) + 1`, a key strictly greater than
both the prior maximum and the original maximum; the write is retried
exactly once — a successful retry commits, a second violation
propagates as the error. -/
theorem sequence_guard_retry (s : SeqState) (interf1 interf2 : List Nat) :
    ((attemptTx s interf1).1 = true →
      restock_supplier s interf1 interf2
        = Except.ok ((attemptTx s interf1).2.1, (attemptTx s interf1).2.2)) ∧
    ((attemptTx s interf1).1 = false →
      (attemptTx s interf1).2.1.keys = s.keys ++ interf1 ∧
      (attemptTx (attemptTx s interf1).2.1 interf2).2.2
        = maxKey (attemptTx s interf1).2.1.keys + 1 ∧
      maxKey s.keys < (attemptTx (attemptTx s interf1).2.1 interf2).2.2 ∧
      ((attemptTx (attemptTx s interf1).2.1 interf2).1 = true →
        restock_supplier s interf1 interf2
          = Except.ok ((attemptTx (attemptTx s interf1).2.1 interf2).2.1,
              (attemptTx (attemptTx s interf1).2.1 interf2).2.2)) ∧
      ((attemptTx (attemptTx s interf1).2.1 interf2).1 = false →
        restock_supplier s interf1 interf2 = Except.error ())) := by
  constructor
  · intro h1
    simp only [restock_supplier, h1, if_true]
  · intro h1
    have hkeys := attemptTx_fail_keys h1
    have hk2 := attemptTx_key (attemptTx s interf1).2.1 interf2
    refine ⟨hkeys, hk2, ?_, ?_, ?_⟩
    · rw [hk2, hkeys, maxKey_append]
      have := Nat.le_max_left (maxKey s.keys) (maxKey interf1)
      omega
    · intro h2
      simp only [restock_supplier, h1, h2, if_true, Bool.false_eq_true, if_false]
    · intro h2
      simp only [restock_supplier, h1, h2, Bool.false_eq_true, if_false]

/-- Witness for `sequence_guard_retry`: keys `[1, 2]`, a concurrent
writer commits 3 between our sync and our insert, the first attempt
collides on 3, the retry draws 4 and succeeds. -/
theorem sequence_guard_retry_witness :
    (attemptTx ⟨[1, 2], 0⟩ [3]).1 = false ∧
      restock_supplier ⟨[1, 2], 0⟩ [3] []
        = Except.ok ((attemptTx (attemptTx ⟨[1, 2], 0⟩ [3]).2.1 []).2.1,
            (attemptTx (attemptTx ⟨[1, 2], 0⟩ [3]).2.1 []).2.2) ∧
      maxKey ([1, 2] : List Nat) < (attemptTx (attemptTx ⟨[1, 2], 0⟩ [3]).2.1 []).2.2 := by
  have hfail : (attemptTx (⟨[1, 2], 0⟩ : SeqState) [3]).1 = false := by decide
  have hok : (attemptTx (attemptTx (⟨[1, 2], 0⟩ : SeqState) [3]).2.1 []).1 = true := by
    decide
  have h := (sequence_guard_retry ⟨[1, 2], 0⟩ [3] []).2 hfail
  exact ⟨hfail, h.2.2.2.1 hok, h.2.2.1⟩

end Testingamas
